import Mathlib

/-!
# Verification of the `duckcross-api` transit route finder

Shallow embedding of `src/transit-route-finder.ts` (class `TransitRouteFinder`).

Modelling conventions:
* JavaScript `Map` (insertion-ordered, `set` replaces in place) is embedded as an
  association list `List (String × α)` with `alookup` / `aset` / `aupdate`.
* JavaScript `Set` (insertion-ordered, `add` is a no-op on duplicates) is embedded as a
  `List` with `sadd`.
* JavaScript numbers are embedded as `Int` (all values involved are integers that fit
  exactly in a double).  The comparison `current.time > bestPath.totalTime * 1.5` is
  rendered exactly as `2 * time > 3 * totalTime`, which is equivalent for doubles in
  the safe-integer range.
* A `string | null` field is embedded as `Option String`; JavaScript truthiness of such
  a value (`if (x)`) is `isTruthyStr` (`null` and the empty string are falsy).
* `Math.round x = ⌊x + 1/2⌋` (JavaScript rounds half toward +∞), so
  `Math.round (d / 60)` is `Int.fdiv (d + 30) 60`.
* The source's unchecked `NaN` propagation for malformed arrival times is embedded by
  making the time parser return `Option Int`; ingestion aborts with `none` where the
  source would propagate `NaN`.  All claims about times restrict to well-formed input.
* The search loop of `findShortestPath` is a `while` loop on a mutable queue; it is
  embedded as the fuel-indexed tail recursion `goFull`, which also returns the final
  `visited` set so that statements about visitation are expressible.  Running out of
  fuel returns the best result recorded so far, exactly like stopping the loop early.
-/

/-! ## Association-list model of JavaScript `Map`, list model of `Set` -/

/-- `Map.get`: first binding of the key, if any. -/
def alookup {α : Type} (m : List (String × α)) (k : String) : Option α :=
  match m with
  | [] => none
  | (k2, v) :: rest => if k2 = k then some v else alookup rest k

/-- `Map.set`: replace the value in place if the key is bound, else append the binding. -/
def aset {α : Type} (m : List (String × α)) (k : String) (v : α) : List (String × α) :=
  match m with
  | [] => [(k, v)]
  | (k2, v2) :: rest => if k2 = k then (k2, v) :: rest else (k2, v2) :: aset rest k v

/-- Update the value bound to `k` in place (no effect when `k` is unbound). -/
def aupdate {α : Type} (m : List (String × α)) (k : String) (f : α → α) : List (String × α) :=
  match m with
  | [] => []
  | (k2, v) :: rest => if k2 = k then (k2, f v) :: rest else (k2, v) :: aupdate rest k f

/-- `if (!m.has(k)) m.set(k, init)`. -/
def ensureKey {α : Type} (m : List (String × α)) (k : String) (init : α) : List (String × α) :=
  match alookup m k with
  | some _ => m
  | none => m ++ [(k, init)]

/-- `Set.add`: append unless already present. -/
def sadd (s : List String) (x : String) : List String :=
  if x ∈ s then s else s ++ [x]

@[simp] theorem alookup_nil {α : Type} (k : String) : alookup ([] : List (String × α)) k = none := rfl

theorem alookup_cons {α : Type} (k2 k : String) (v : α) (rest : List (String × α)) :
    alookup ((k2, v) :: rest) k = if k2 = k then some v else alookup rest k := rfl

/-- A successful lookup returns a binding that is present in the list. -/
theorem alookup_mem {α : Type} {m : List (String × α)} {k : String} {v : α}
    (h : alookup m k = some v) : (k, v) ∈ m := by
  induction m with
  | nil => simp [alookup] at h
  | cons p rest ih =>
    obtain ⟨k2, v2⟩ := p
    rw [alookup_cons] at h
    by_cases hk : k2 = k
    · simp [hk] at h
      simp [hk, h]
    · simp [hk] at h
      exact List.mem_cons_of_mem _ (ih h)

theorem alookup_aset {α : Type} (m : List (String × α)) (k k2 : String) (v : α) :
    alookup (aset m k v) k2 = if k = k2 then some v else alookup m k2 := by
  induction m with
  | nil => by_cases h : k = k2 <;> simp [aset, alookup, h]
  | cons p rest ih =>
    obtain ⟨k3, v3⟩ := p
    by_cases h3 : k3 = k
    · subst h3
      by_cases h2 : k3 = k2 <;> simp [aset, alookup, h2, ih]
    · simp only [aset, if_neg h3]
      by_cases h2 : k3 = k2
      · subst h2
        have : ¬ k = k3 := fun h => h3 h.symm
        simp [alookup, this]
      · simp [alookup, h2, ih]

theorem alookup_aupdate {α : Type} (m : List (String × α)) (k k2 : String) (f : α → α) :
    alookup (aupdate m k f) k2 =
      if k = k2 then (alookup m k).map f else alookup m k2 := by
  induction m with
  | nil => by_cases h : k = k2 <;> simp [aupdate, alookup, h]
  | cons p rest ih =>
    obtain ⟨k3, v3⟩ := p
    by_cases h3 : k3 = k
    · subst h3
      by_cases h2 : k3 = k2 <;> simp [aupdate, alookup, h2, ih]
    · simp only [aupdate, if_neg h3]
      by_cases h2 : k3 = k2
      · subst h2
        have : ¬ k = k3 := fun h => h3 h.symm
        simp [alookup, this]
      · simp [alookup, h2, h3, ih]

theorem alookup_ensureKey {α : Type} (m : List (String × α)) (k k2 : String) (init : α) :
    alookup (ensureKey m k init) k2 =
      if k = k2 then some ((alookup m k).getD init) else alookup m k2 := by
  unfold ensureKey
  cases h : alookup m k with
  | some v =>
    by_cases h2 : k = k2
    · subst h2; simp [h]
    · simp [h2]
  | none =>
    induction m with
    | nil => by_cases h2 : k = k2 <;> simp [alookup, h2]
    | cons p rest ih =>
      obtain ⟨k3, v3⟩ := p
      rw [alookup_cons] at h
      by_cases h3 : k3 = k
      · simp [h3] at h
      · simp only [if_neg h3] at h
        by_cases h2 : k3 = k2
        · subst h2
          have hne : ¬ k = k3 := fun hh => h3 hh.symm
          simp [alookup, h3, hne, List.cons_append]
        · simp only [List.cons_append, alookup_cons, if_neg h2]
          exact ih h

theorem mem_sadd (s : List String) (x y : String) :
    y ∈ sadd s x ↔ y ∈ s ∨ y = x := by
  unfold sadd
  by_cases h : x ∈ s
  · simp only [if_pos h]
    constructor
    · exact Or.inl
    · rintro (hy | rfl)
      · exact hy
      · exact h
  · simp [if_neg h]

theorem self_mem_sadd (s : List String) (x : String) : x ∈ sadd s x :=
  (mem_sadd s x x).2 (Or.inr rfl)

theorem mem_sadd_of_mem {s : List String} {y : String} (x : String) (h : y ∈ s) :
    y ∈ sadd s x := (mem_sadd s x y).2 (Or.inl h)

theorem mem_foldl_sadd (l : List String) (r : List String) (x : String) :
    x ∈ l.foldl sadd r ↔ x ∈ r ∨ x ∈ l := by
  induction l generalizing r with
  | nil => simp
  | cons a l ih =>
    simp only [List.foldl_cons, ih, mem_sadd, List.mem_cons]
    tauto

/-! ## Data model (`transit-route-finder.ts`, interfaces at the top of the file) -/

/-- A scheduled stop visit (interface `Stop` in the source). -/
structure StopVisit where
  trip_id : String
  stop_id : String
  arrival_time : String
  stop_sequence : Int
  deriving DecidableEq

/-- Stop row as consumed by the station resolution helpers (interface `StopData`). -/
structure StopData where
  id : String
  name : String
  parent_stop_id : Option String
  deriving DecidableEq

/-- A transfer row (interface `Transfer`); `min_transfer_time` is in seconds. -/
structure Transfer where
  from_stop_id : String
  to_stop_id : String
  transfer_type : Int
  min_transfer_time : Option Int
  deriving DecidableEq

/-- Result of a path search (interface `PathResult`). -/
structure PathResult where
  path : List String
  totalTime : Int
  transfers : Nat
  transferPoints : List String
  deriving DecidableEq

/-- One trip's ordered stop sequence with per-adjacent-pair travel times
(interface `DirectLine`; `travelTimes` maps the key `"stopA-stopB"` to minutes). -/
structure DirectLine where
  trip_id : String
  stops : List String
  travelTimes : List (String × Int)
  deriving DecidableEq

/-- The mutable fields of class `TransitRouteFinder`. -/
structure TransitRouteFinder where
  stopsByLine : List (String × List String) := []
  stopConnections : List (String × List String) := []
  stationNames : List (String × String) := []
  transferOptions : List (String × List (String × Int)) := []
  stopTimesMap : List (String × List (String × Int)) := []
  directLines : List DirectLine := []
  deriving DecidableEq

/-- A fresh `TransitRouteFinder` instance (all maps empty). -/
def TransitRouteFinder.empty : TransitRouteFinder := {}

/-! ## Time arithmetic (`getTimeDifference`, lines 413-428) -/

/-- `String.prototype.split` with a one-character separator, over character lists:
`"a::b".split(":")` is `["a", "", "b"]` and `"".split(":")` is `[""]`. -/
def splitChar (sep : Char) : List Char → List (List Char)
  | [] => [[]]
  | c :: rest =>
    let r := splitChar sep rest
    if c = sep then [] :: r
    else
      match r with
      | [] => [[c]]
      | h :: t => (c :: h) :: t

/-- Accumulating decimal-digit evaluator; `none` when no digit has been read yet or a
non-digit occurs. -/
def digitsVal : List Char → Option Nat → Option Nat
  | [], acc => acc
  | c :: rest, acc =>
    if c.isDigit then digitsVal rest (some (acc.getD 0 * 10 + (c.toNat - 48)))
    else none

/-- JavaScript `Number(field)` restricted to the fields of a time string: a non-empty
run of decimal digits evaluates to its value; anything else is `NaN`, embedded as
`none`.  (For inputs outside this domain — e.g. `Number("") = 0`, signs, blanks — the
model is coarser than `Number`; every claim about times restricts to well-formed
digit fields, where the two agree.) -/
def parseNumber (cs : List Char) : Option Int :=
  (digitsVal cs none).map Int.ofNat

/-- The inner `parseTime` helper: `const [h, m, s = '0'] = time.split(':').map(Number);
return h * 3600 + m * 60 + Number(s);`.  A field that does not parse as a number, or a
missing minutes field, makes the JavaScript expression `NaN`; this is embedded as `none`.
Extra fields beyond the third are ignored by the destructuring, as in the source. -/
def parseTime (time : String) : Option Int :=
  match (splitChar ':' time.toList).map parseNumber with
  | some h :: some m :: rest =>
    match rest with
    | [] => some (h * 3600 + m * 60 + 0)
    | some s :: _ => some (h * 3600 + m * 60 + s)
    | none :: _ => none
  | _ => none

/-- `getTimeDifference(time1, time2)`: seconds difference, plus 24 h when negative,
then `Math.round(timeDiff / 60)`. -/
def getTimeDifference (time1 time2 : String) : Option Int := do
  let seconds1 ← parseTime time1
  let seconds2 ← parseTime time2
  let timeDiff := seconds2 - seconds1
  let timeDiff := if timeDiff < 0 then timeDiff + 24 * 3600 else timeDiff
  pure (Int.fdiv (timeDiff + 30) 60)

/-! ## Name lookup and base-station ids -/

/-- `getStationName(stopId)`: `this.stationNames.get(stopId) || stopId`; the stored name
is returned only when it is truthy (non-empty). -/
def getStationName (f : TransitRouteFinder) (stopId : String) : String :=
  match alookup f.stationNames stopId with
  | some name => if name = "" then stopId else name
  | none => stopId

/-- `getBaseStationId(stationId)`: `stationId.replace(/[NS]$/, '')` — strip one trailing
`N` or `S` (implemented over the character list). -/
def getBaseStationId (stationId : String) : String :=
  match stationId.toList.getLast? with
  | some c => if c = 'N' ∨ c = 'S' then String.mk stationId.toList.dropLast else stationId
  | none => stationId

/-! ## Station-name resolution (`normalizeStationName`, `findAllRelatedStopIds`) -/

/-- `/\s+/g → ' '` collapsing: each maximal whitespace run becomes a single space.
`prevWS` records whether the previous character was part of a whitespace run. -/
def collapseWSAux (prevWS : Bool) : List Char → List Char
  | [] => []
  | c :: rest =>
    if c.isWhitespace then
      if prevWS then collapseWSAux true rest
      else ' ' :: collapseWSAux true rest
    else c :: collapseWSAux false rest

/-- Replace each maximal whitespace run by a single space. -/
def collapseWS (cs : List Char) : List Char := collapseWSAux false cs

/-- `trim`: strip whitespace from both ends of a character list. -/
def charsTrim (cs : List Char) : List Char :=
  ((cs.dropWhile Char.isWhitespace).reverse.dropWhile Char.isWhitespace).reverse

/-- `normalizeStationName(name)`: lowercase, collapse internal whitespace runs to a
single space, trim.  Lowercasing is per character (`Char.toLower`), which agrees with
`String.prototype.toLowerCase` on the ASCII names involved. -/
def normalizeStationName (name : String) : String :=
  String.mk (charsTrim (collapseWS (name.toList.map Char.toLower)))

/-- `b` occurs as a contiguous substring starting somewhere in `hay`. -/
def charsContain (needle : List Char) : List Char → Bool
  | [] => needle.isEmpty
  | a :: as => needle.isPrefixOf (a :: as) || charsContain needle as

/-- JavaScript `a.includes(b)`: `b` occurs as a contiguous substring of `a`. -/
def strIncludes (a b : String) : Bool :=
  charsContain b.toList a.toList

/-- Adds `stopId` and, when it is a parent station, all of its children
(the body of the direct-match loop, also reused by the no-exact-match fallback). -/
def addWithChildren (stationMap : List (String × List String))
    (result : List String) (stopId : String) : List String :=
  let result := sadd result stopId
  match alookup stationMap stopId with
  | some children => children.foldl sadd result
  | none => result

/-- `findAllRelatedStopIds(stationName, stationNameToIds, stationMap)` (lines 491-541).
The first branch handles an exact normalized-name match (direct matches plus their
children, then the fuzzy pass which unions in ids of other names containing the query);
the second branch is the fallback two-way substring scan. -/
def findAllRelatedStopIds (stationName : String)
    (stationNameToIds : List (String × List String))
    (stationMap : List (String × List String)) : List String :=
  match alookup stationNameToIds stationName with
  | some directMatches =>
    let result := directMatches.foldl (addWithChildren stationMap) []
    stationNameToIds.foldl
      (fun result p =>
        if p.1 ≠ stationName ∧ strIncludes p.1 stationName then p.2.foldl sadd result
        else result)
      result
  | none =>
    stationNameToIds.foldl
      (fun result p =>
        if strIncludes p.1 stationName || strIncludes stationName p.1 then
          p.2.foldl (addWithChildren stationMap) result
        else result)
      []

/-- The two maps built by `findStationStopIds` from the stop rows:
`stationNameToIds` (normalized name → set of stop ids) and `stationMap`
(parent stop id → set of child ids).  The source guards the parent update with
`if (stop.parent_stop_id)`, a truthiness test, so an empty-string parent id counts as
no parent. -/
def buildStationMaps (stops : List StopData) :
    List (String × List String) × List (String × List String) :=
  stops.foldl
    (fun maps stop =>
      let normalizedName := normalizeStationName stop.name
      let nameToIds := aupdate (ensureKey maps.1 normalizedName []) normalizedName
        (fun s => sadd s stop.id)
      let stationMap :=
        match stop.parent_stop_id with
        | some parent =>
          if parent ≠ "" then
            aupdate (ensureKey maps.2 parent []) parent (fun s => sadd s stop.id)
          else maps.2
        | none => maps.2
      (nameToIds, stationMap))
    ([], [])

/-! ## Ingestion: `processStopTimes` (lines 55-132) -/

/-- Stable sort: insert `x` after every element `y` with `le y x`.  JavaScript
`Array.prototype.sort` is a stable sort, and a stable sort's output is uniquely
determined by the comparator, so this insertion sort is an exact embedding. -/
def insertLE {α : Type} (le : α → α → Bool) (x : α) : List α → List α
  | [] => [x]
  | y :: ys => if le y x then y :: insertLE le x ys else x :: y :: ys

/-- Stable sort by `le` (see `insertLE`). -/
def stableSortBy {α : Type} (le : α → α → Bool) (l : List α) : List α :=
  l.foldl (fun acc x => insertLE le x acc) []

/-- Group the fetched rows by `trip_id` (`stopsByTrip` in the source), preserving
both the order of first appearance of each trip and the row order within a trip. -/
def groupByTrip (rows : List StopVisit) : List (String × List StopVisit) :=
  rows.foldl
    (fun m r => aupdate (ensureKey m r.trip_id []) r.trip_id (fun l => l ++ [r]))
    []

/-- The per-stop loop body of `processStopTimes` for one trip: register the stop on the
line, initialize its adjacency entry, and when a next stop exists connect to it and
record the travel time.  Returns `none` where the source would store a `NaN` travel
time (malformed arrival time). -/
def processTripStops (tripId : String) :
    List StopVisit → TransitRouteFinder → DirectLine →
    Option (TransitRouteFinder × DirectLine)
  | [], f, line => some (f, line)
  | [currentStop], f, line =>
    let f := { f with
      stopsByLine := aupdate f.stopsByLine tripId (fun s => sadd s currentStop.stop_id),
      stopConnections := ensureKey f.stopConnections currentStop.stop_id [] }
    some (f, line)
  | currentStop :: nextStop :: rest, f, line =>
    let f := { f with
      stopsByLine := aupdate f.stopsByLine tripId (fun s => sadd s currentStop.stop_id),
      stopConnections :=
        aupdate (ensureKey f.stopConnections currentStop.stop_id [])
          currentStop.stop_id (fun s => sadd s nextStop.stop_id) }
    match getTimeDifference currentStop.arrival_time nextStop.arrival_time with
    | none => none
    | some timeDiff =>
      let key := currentStop.stop_id ++ "-" ++ nextStop.stop_id
      let line := { line with travelTimes := aset line.travelTimes key timeDiff }
      let f := { f with
        stopTimesMap :=
          aupdate (ensureKey f.stopTimesMap tripId [])
            tripId (fun m => aset m key timeDiff) }
      processTripStops tripId (nextStop :: rest) f line

/-- Process one trip of `processStopTimes`: sort its visits by `stop_sequence`
(stable, as `Array.prototype.sort`), build its `DirectLine`, and run the stop loop. -/
def processTrip (f : TransitRouteFinder) (tripId : String) (stops : List StopVisit) :
    Option TransitRouteFinder := do
  let sortedStops := stableSortBy (fun a b => a.stop_sequence ≤ b.stop_sequence) stops
  let line : DirectLine :=
    { trip_id := tripId, stops := sortedStops.map (fun s => s.stop_id), travelTimes := [] }
  let f := { f with stopsByLine := ensureKey f.stopsByLine tripId [] }
  let (f, line) ← processTripStops tripId sortedStops f line
  pure { f with directLines := f.directLines ++ [line] }

/-- `processStopTimes()`: group the fetched rows by trip and process each trip. -/
def processStopTimes (rows : List StopVisit) (f : TransitRouteFinder) :
    Option TransitRouteFinder :=
  (groupByTrip rows).foldlM (fun f p => processTrip f p.1 p.2) f

/-! ## Ingestion: `processTransfers` (lines 135-209) -/

/-- Transfer minutes: `min_transfer_time != null ? Math.round(min_transfer_time / 60) : 5`. -/
def transferMinutes (t : Transfer) : Int :=
  match t.min_transfer_time with
  | some secs => Int.fdiv (secs + 30) 60
  | none => 5

/-- The per-row loop body of `processTransfers`: store the transfer option and add the
adjacency edge. -/
def processOneTransfer (f : TransitRouteFinder) (t : Transfer) : TransitRouteFinder :=
  let transferTime := transferMinutes t
  { f with
    transferOptions :=
      aupdate (ensureKey f.transferOptions t.from_stop_id [])
        t.from_stop_id (fun m => aset m t.to_stop_id transferTime),
    stopConnections :=
      aupdate (ensureKey f.stopConnections t.from_stop_id [])
        t.from_stop_id (fun s => sadd s t.to_stop_id) }

/-- The variant-pair body of `processVariantTransfers`: add a 2-minute transfer option
`fromId → toId` and the adjacency edge. -/
def addVariantPair (f : TransitRouteFinder) (fromId toId : String) : TransitRouteFinder :=
  { f with
    transferOptions :=
      aupdate (ensureKey f.transferOptions fromId []) fromId (fun m => aset m toId 2),
    stopConnections :=
      aupdate (ensureKey f.stopConnections fromId []) fromId (fun s => sadd s toId) }

/-- The double loop over one variant group: for every ordered pair of positions `i ≠ j`
add the pair.  The group is a `Set`, so its elements are distinct and position
inequality coincides with value inequality, which is how the loop is rendered here. -/
def addAllVariantPairs (f : TransitRouteFinder) (variants : List String) :
    TransitRouteFinder :=
  variants.foldl
    (fun f fromId =>
      variants.foldl
        (fun f toId => if fromId ≠ toId then addVariantPair f fromId toId else f)
        f)
    f

/-- `stationVariants` grouping: every key of `stopConnections`, grouped by its base
station id, in key order. -/
def buildStationVariants (keys : List String) : List (String × List String) :=
  keys.foldl
    (fun m stopId =>
      let b := getBaseStationId stopId
      aupdate (ensureKey m b []) b (fun s => sadd s stopId))
    []

/-- `processVariantTransfers()`: group the adjacency keys by base station id and, for
every group with more than one variant, add 2-minute transfers between every ordered
pair of distinct variants. -/
def processVariantTransfers (f : TransitRouteFinder) : TransitRouteFinder :=
  let stationVariants := buildStationVariants (f.stopConnections.map (fun p => p.1))
  stationVariants.foldl
    (fun f p => if 1 < p.2.length then addAllVariantPairs f p.2 else f)
    f

/-- `processTransfers()`: ingest the fetched transfer rows, then derive the variant
transfers. -/
def processTransfers (rows : List Transfer) (f : TransitRouteFinder) :
    TransitRouteFinder :=
  processVariantTransfers (rows.foldl processOneTransfer f)

/-- `processStops()`: build the id → name map. -/
def processStops (rows : List StopData) (f : TransitRouteFinder) : TransitRouteFinder :=
  { f with
    stationNames := rows.foldl (fun m stop => aset m stop.id stop.name) f.stationNames }

/-! ## The search engine: `findShortestPath` (lines 260-400) -/

/-- A queue record of `findShortestPath`. -/
structure Entry where
  stop : String
  path : List String
  time : Int
  transfers : Nat
  transferPoints : List String
  lastTrip : Option String
  deriving DecidableEq

/-- JavaScript truthiness of a `string | null` value: `null` and `""` are falsy. -/
def isTruthyStr : Option String → Bool
  | none => false
  | some s => s ≠ ""

/-- The travel time recorded on `line` for the pair, trying the forward key, then the
reverse key, then the 3-minute default (lines 345-356). -/
def lineTravelTime (line : DirectLine) (currentStop nextStop : String) : Int :=
  match alookup line.travelTimes (currentStop ++ "-" ++ nextStop) with
  | some t => t
  | none =>
    match alookup line.travelTimes (nextStop ++ "-" ++ currentStop) with
    | some t => t
    | none => 3

/-- The `for (const line of this.directLines)` classification loop (lines 337-360):
the first line on which both stops occur at index distance exactly 1 yields the owning
trip id and the travel time. -/
def findLineEdge (lines : List DirectLine) (currentStop nextStop : String) :
    Option (String × Int) :=
  match lines with
  | [] => none
  | line :: rest =>
    match line.stops.findIdx? (fun s => s = currentStop),
        line.stops.findIdx? (fun s => s = nextStop) with
    | some stopIndex, some nextStopIndex =>
      if stopIndex = nextStopIndex + 1 ∨ nextStopIndex = stopIndex + 1 then
        some (line.trip_id, lineTravelTime line currentStop nextStop)
      else findLineEdge rest currentStop nextStop
    | _, _ => findLineEdge rest currentStop nextStop

/-- The queue push at lines 387-395, shared by the direct-line case
(`isTransfer = false`, a truthy trip id) and the transfer-with-falsy-`lastTrip` case
(`isTransfer = true`, the `tripId` variable holding `null` or `""`). -/
def generalPush (current : Entry) (nextStop : String) (isTransfer : Bool)
    (transferTime : Int) (tripId : Option String) : Entry :=
  let isChange := isTransfer && current.lastTrip ≠ tripId && current.lastTrip ≠ none
  { stop := nextStop,
    path := current.path ++ [nextStop],
    time := current.time + transferTime,
    transfers := current.transfers + (if isChange then 1 else 0),
    transferPoints := current.transferPoints ++ (if isChange then [current.stop] else []),
    lastTrip := if isTruthyStr tripId then tripId else current.lastTrip }

/-- The `if (!tripId)` transfer branch (lines 362-385): look up the transfer table;
when the pair has an entry, a truthy `lastTrip` takes the early push at lines 371-378
(transfer counted, `lastTrip` reset) and a falsy one falls through to the general push;
when it has none the edge is skipped (`continue`).  `tripId` is whatever the
classification loop left in the `tripId` variable: `none` when no direct line matched,
`some ""` when a line with an empty (falsy) trip id matched. -/
def expandTransfer (f : TransitRouteFinder) (current : Entry) (nextStop : String)
    (tripId : Option String) : Option Entry :=
  match alookup f.transferOptions current.stop with
  | some transfers =>
    match alookup transfers nextStop with
    | some transferTime =>
      if isTruthyStr current.lastTrip then
        some { stop := nextStop,
               path := current.path ++ [nextStop],
               time := current.time + transferTime,
               transfers := current.transfers + 1,
               transferPoints := current.transferPoints ++ [current.stop],
               lastTrip := none }
      else some (generalPush current nextStop true transferTime tripId)
    | none => none
  | none => none

/-- The `for (const nextStop of connections)` body (lines 325-396): skip stops already
on the path, classify the edge, and produce the entry to push (or `none` to skip).
The source tests `if (!tripId)` by truthiness, so a matching direct line whose
`trip_id` is the empty string still takes the transfer branch (its line travel time
discarded, the `tripId` variable holding `""`); only a line with a truthy trip id
takes the direct-line push. -/
def expandEntry (f : TransitRouteFinder) (current : Entry) (nextStop : String) :
    Option Entry :=
  if nextStop ∈ current.path then none
  else
    match findLineEdge f.directLines current.stop nextStop with
    | some (tripId, transferTime) =>
      if tripId ≠ "" then
        some (generalPush current nextStop false transferTime (some tripId))
      else expandTransfer f current nextStop (some "")
    | none => expandTransfer f current nextStop none

/-- The pruning test at line 298: `bestPath && current.time > bestPath.totalTime * 1.5`,
rendered exactly over integers as `2 * time > 3 * totalTime`. -/
def pruneCheck (bestPath : Option PathResult) (current : Entry) : Bool :=
  match bestPath with
  | some b => 2 * current.time > 3 * b.totalTime
  | none => false

/-- The adjacency list used for expansion:
`this.stopConnections.get(current.stop) || new Set()`. -/
def connectionsOf (f : TransitRouteFinder) (stop : String) : List String :=
  (alookup f.stopConnections stop).getD []

/-- The `while (queue.length > 0)` loop of `findShortestPath`, embedded with fuel.
Returns the recorded best result together with the final `visited` set; exhausting the
fuel stops the loop early and returns what is recorded so far. -/
def goFull (f : TransitRouteFinder) (dest : String) :
    Nat → List Entry → List String → Option PathResult →
    Option PathResult × List String
  | 0, _, visited, bestPath => (bestPath, visited)
  | Nat.succ fuel, queue, visited, bestPath =>
    match queue with
    | [] => (bestPath, visited)
    | current :: rest =>
      if pruneCheck bestPath current then
        goFull f dest fuel rest visited bestPath
      else if current.stop = dest then
        goFull f dest fuel rest visited
          (some { path := current.path, totalTime := current.time,
                  transfers := current.transfers,
                  transferPoints := current.transferPoints })
      else if current.stop ∈ visited then
        goFull f dest fuel rest visited bestPath
      else
        goFull f dest fuel
          (rest ++ (connectionsOf f current.stop).filterMap (expandEntry f current))
          (visited ++ [current.stop]) bestPath

/-- The initial queue record (lines 282-289). -/
def initialEntry (start : String) : Entry :=
  { stop := start, path := [start], time := 0, transfers := 0,
    transferPoints := [], lastTrip := none }

/-- `findShortestPath(start, end)`: `null` when `start` has no adjacency entry at all,
otherwise the result of the queue loop. -/
def findShortestPath (f : TransitRouteFinder) (start dest : String) (fuel : Nat) :
    Option PathResult :=
  if (alookup f.stopConnections start).isNone then none
  else (goFull f dest fuel [initialEntry start] [] none).1

/-! ## `findPaths` (lines 228-257) -/

/-- The inner destination loop: skip identical ids, append a produced result, and break
out as soon as `maxPaths` results have been collected. -/
def findPathsInner (f : TransitRouteFinder) (fuel : Nat) (originId : String)
    (maxPaths : Nat) : List String → List PathResult → List PathResult
  | [], results => results
  | destId :: dests, results =>
    if originId = destId then findPathsInner f fuel originId maxPaths dests results
    else
      let results :=
        match findShortestPath f originId destId fuel with
        | some result => results ++ [result]
        | none => results
      if maxPaths ≤ results.length then results
      else findPathsInner f fuel originId maxPaths dests results

/-- The outer origin loop with its own early break. -/
def findPathsOuter (f : TransitRouteFinder) (fuel : Nat) (maxPaths : Nat)
    (destStopIds : List String) : List String → List PathResult → List PathResult
  | [], results => results
  | originId :: origins, results =>
    let results := findPathsInner f fuel originId maxPaths destStopIds results
    if maxPaths ≤ results.length then results
    else findPathsOuter f fuel maxPaths destStopIds origins results

/-- `findPaths(originStopIds, destStopIds, maxPaths)`: collect one result per explored
pair, sort ascending by total time (stable), and return the first `maxPaths`. -/
def findPaths (f : TransitRouteFinder) (fuel : Nat) (originStopIds destStopIds : List String)
    (maxPaths : Nat) : List PathResult :=
  let results := findPathsOuter f fuel maxPaths destStopIds originStopIds []
  (stableSortBy (fun a b => a.totalTime ≤ b.totalTime) results).take maxPaths

/-! ## Claim C4 — `getTimeDifference` -/

/-- **C4**: for well-formed time strings (modelled as strings on which `parseTime`
succeeds), `getTimeDifference` returns the difference in whole minutes: 24 hours in
seconds are added exactly when the second time minus the first is negative, and the
result is the nearest whole minute of the (possibly adjusted) difference — within half
a minute, ties rounded up, as `Math.round` does.  Concretely, `"08:00:00" → "08:05:00"`
yields 5 minutes and `"23:58:00" → "00:02:00"` yields 4 minutes. -/
theorem claim_C4 (time1 time2 : String) (s1 s2 : Int)
    (h1 : parseTime time1 = some s1) (h2 : parseTime time2 = some s2) :
    (∃ d, getTimeDifference time1 time2 = some d ∧
      ((s2 - s1 < 0 → 60 * d ≤ (s2 - s1 + 24 * 3600) + 30 ∧
          (s2 - s1 + 24 * 3600) + 30 < 60 * d + 60) ∧
       (0 ≤ s2 - s1 → 60 * d ≤ (s2 - s1) + 30 ∧ (s2 - s1) + 30 < 60 * d + 60))) ∧
    getTimeDifference "08:00:00" "08:05:00" = some 5 ∧
    getTimeDifference "23:58:00" "00:02:00" = some 4 := by
  refine ⟨?_, by decide, by decide⟩
  refine ⟨Int.fdiv ((if s2 - s1 < 0 then s2 - s1 + 24 * 3600 else s2 - s1) + 30) 60,
    ?_, ?_, ?_⟩
  · simp [getTimeDifference, h1, h2]
  · intro hneg
    simp only [if_pos hneg]
    have hq := Int.fmod_add_fdiv (s2 - s1 + 24 * 3600 + 30) 60
    have hn : 0 ≤ Int.fmod (s2 - s1 + 24 * 3600 + 30) 60 :=
      Int.fmod_nonneg' _ (by norm_num)
    have hl : Int.fmod (s2 - s1 + 24 * 3600 + 30) 60 < 60 :=
      Int.fmod_lt_of_pos _ (by norm_num)
    omega
  · intro hpos
    have hcond : ¬ s2 - s1 < 0 := by omega
    simp only [if_neg hcond]
    have hq := Int.fmod_add_fdiv (s2 - s1 + 30) 60
    have hn : 0 ≤ Int.fmod (s2 - s1 + 30) 60 := Int.fmod_nonneg' _ (by norm_num)
    have hl : Int.fmod (s2 - s1 + 30) 60 < 60 := Int.fmod_lt_of_pos _ (by norm_num)
    omega

/-- Witness for C4 at the wraparound example: `"23:58:00"` parses to 86280 s,
`"00:02:00"` to 120 s, and the rounded wrapped difference is 4 minutes. -/
theorem claim_C4_witness : getTimeDifference "23:58:00" "00:02:00" = some 4 :=
  (claim_C4 "23:58:00" "00:02:00" 86280 120 (by decide) (by decide)).2.2

/-! ## Claim C10 — `getStationName` -/

/-- **C10**: `getStationName` echoes the input id when the id is unknown to the name
index and also when the stored name is the empty string (the lookup is tested for
truthiness); for every id whose stored name is non-empty, the stored name is returned. -/
theorem claim_C10 (f : TransitRouteFinder) (stopId : String) :
    (alookup f.stationNames stopId = none → getStationName f stopId = stopId) ∧
    (alookup f.stationNames stopId = some "" → getStationName f stopId = stopId) ∧
    (∀ name, name ≠ "" → alookup f.stationNames stopId = some name →
      getStationName f stopId = name) := by
  refine ⟨fun h => ?_, fun h => ?_, fun name hne h => ?_⟩
  · simp [getStationName, h]
  · simp [getStationName, h]
  · simp [getStationName, h, hne]

/-- The name index used by the C10 witness: ingested via `processStops` from one stop
with a proper name and one with an empty name. -/
def c10finder : TransitRouteFinder :=
  processStops [⟨"S1", "Hunter College", none⟩, ⟨"S2", "", none⟩]
    TransitRouteFinder.empty

/-- Witness for C10: unknown id echoed, empty-name id echoed, non-empty name returned. -/
theorem claim_C10_witness :
    getStationName c10finder "S9" = "S9" ∧
    getStationName c10finder "S2" = "S2" ∧
    getStationName c10finder "S1" = "Hunter College" :=
  ⟨(claim_C10 c10finder "S9").1 (by decide),
   (claim_C10 c10finder "S2").2.1 (by decide),
   (claim_C10 c10finder "S1").2.2 "Hunter College" (by decide) (by decide)⟩

/-! ## Claim C1 — transfer counting in `findShortestPath` -/

/-- Two trips that meet at `S2`: trip `A` runs `S1 → S2`, trip `B` runs `S2 → S3`. -/
def c1rows : List StopVisit :=
  [⟨"A", "S1", "08:00:00", 1⟩, ⟨"A", "S2", "08:05:00", 2⟩,
   ⟨"B", "S2", "09:00:00", 1⟩, ⟨"B", "S3", "09:04:00", 2⟩]

/-- The route finder built from `c1rows` (ingestion succeeds on this input). -/
def c1finder : TransitRouteFinder :=
  (processStopTimes c1rows TransitRouteFinder.empty).getD TransitRouteFinder.empty

/-- **C1 counterexample**: the step leaving `S2` (reached on trip `A`) uses trip `B`'s
direct-line edge `S2 → S3` — the last-used trip id is defined and differs from the trip
id about to be used, so the claim predicts the transfer counter increases by one and
`S2` is appended to the transfer points.  The code classifies the edge as a direct-line
edge (`isTransfer` stays `false`), so the returned result has `transfers = 0` and no
transfer points. -/
theorem claim_C1_counterexample :
    processStopTimes c1rows TransitRouteFinder.empty = some c1finder ∧
    findLineEdge c1finder.directLines "S1" "S2" = some ("A", 5) ∧
    findLineEdge c1finder.directLines "S2" "S3" = some ("B", 4) ∧
    findShortestPath c1finder "S1" "S3" 9 =
      some { path := ["S1", "S2", "S3"], totalTime := 9, transfers := 0,
             transferPoints := [] } :=
  ⟨by decide, by decide, by decide, by decide⟩

/-- **C1 amended**: a traversed edge increments the transfer counter and appends the
current stop to the transfer-point list exactly when the edge is resolved through the
transfer table with a non-null prior trip: either no direct line classifies the edge
and the last-used trip id is non-null, or — the degenerate falsy-trip-id case — a
direct line with an empty trip id classifies it and the last-used trip id is truthy.
A direct-line edge with a non-empty trip id never increments the counter, even when
the owning trip differs from the last-used trip id; the very first edge of a path (no
prior trip) never counts either. -/
theorem claim_C1_amended (f : TransitRouteFinder) (current : Entry) (nextStop : String)
    (next : Entry) (h : expandEntry f current nextStop = some next) :
    ((next.transfers = current.transfers + 1 ∧
        next.transferPoints = current.transferPoints ++ [current.stop]) ↔
      ((findLineEdge f.directLines current.stop nextStop = none ∧
          current.lastTrip ≠ none) ∨
        ((∃ t, findLineEdge f.directLines current.stop nextStop = some ("", t)) ∧
          isTruthyStr current.lastTrip = true))) ∧
    (∀ tripId time, tripId ≠ "" →
      findLineEdge f.directLines current.stop nextStop = some (tripId, time) →
      next.transfers = current.transfers ∧
        next.transferPoints = current.transferPoints) ∧
    (current.lastTrip = none →
      next.transfers = current.transfers ∧
        next.transferPoints = current.transferPoints) := by
  by_cases hmem : nextStop ∈ current.path
  · simp [expandEntry, hmem] at h
  · rw [expandEntry, if_neg hmem] at h
    cases hline : findLineEdge f.directLines current.stop nextStop with
    | some p =>
      obtain ⟨tripId, time⟩ := p
      simp only [hline] at h
      by_cases htid : tripId = ""
      · subst htid
        rw [if_neg (fun hc => hc rfl)] at h
        unfold expandTransfer at h
        cases hopts : alookup f.transferOptions current.stop with
        | none => simp [hopts] at h
        | some transfers =>
          simp only [hopts] at h
          cases htimev : alookup transfers nextStop with
          | none => simp [htimev] at h
          | some transferTime =>
            simp only [htimev] at h
            by_cases htruthy : isTruthyStr current.lastTrip = true
            · rw [if_pos htruthy] at h
              simp only [Option.some.injEq] at h
              subst h
              refine ⟨?_, ?_, ?_⟩
              · constructor
                · intro _
                  exact Or.inr ⟨⟨time, rfl⟩, htruthy⟩
                · intro _
                  exact ⟨rfl, rfl⟩
              · intro tripId2 time2 hne2 hsome
                simp only [Option.some.injEq, Prod.mk.injEq] at hsome
                exact absurd hsome.1.symm hne2
              · intro hnone
                rw [hnone] at htruthy
                simp [isTruthyStr] at htruthy
            · rw [if_neg htruthy] at h
              simp only [Option.some.injEq] at h
              subst h
              have hfalsy : current.lastTrip = none ∨ current.lastTrip = some "" := by
                cases hl : current.lastTrip with
                | none => exact Or.inl rfl
                | some s2 =>
                  have hs2 : s2 = "" := by
                    by_contra hne
                    exact htruthy (by simp [isTruthyStr, hl, hne])
                  refine Or.inr ?_
                  simp [hl, hs2]
              have hnochange :
                  (generalPush current nextStop true transferTime
                      (some "")).transfers = current.transfers ∧
                  (generalPush current nextStop true transferTime
                      (some "")).transferPoints = current.transferPoints := by
                rcases hfalsy with hl | hl <;> simp [generalPush, hl]
              refine ⟨?_, ?_, ?_⟩
              · constructor
                · rintro ⟨hc1, -⟩
                  rw [hnochange.1] at hc1
                  omega
                · rintro (⟨habs, -⟩ | ⟨-, htr2⟩)
                  · exact Option.noConfusion habs
                  · exact absurd htr2 htruthy
              · intro tripId2 time2 hne2 hsome
                simp only [Option.some.injEq, Prod.mk.injEq] at hsome
                exact absurd hsome.1.symm hne2
              · intro _
                exact hnochange
      · rw [if_pos htid] at h
        simp only [Option.some.injEq] at h
        subst h
        have hnochange :
            (generalPush current nextStop false time (some tripId)).transfers =
              current.transfers ∧
            (generalPush current nextStop false time (some tripId)).transferPoints =
              current.transferPoints := by
          constructor <;> simp [generalPush]
        refine ⟨?_, ?_, ?_⟩
        · constructor
          · rintro ⟨hc1, -⟩
            rw [hnochange.1] at hc1
            omega
          · rintro (⟨habs, -⟩ | ⟨⟨t2, habs⟩, -⟩)
            · exact Option.noConfusion habs
            · simp only [Option.some.injEq, Prod.mk.injEq] at habs
              exact absurd habs.1 htid
        · intro _ _ _ _
          exact hnochange
        · intro _
          exact hnochange
    | none =>
      simp only [hline] at h
      unfold expandTransfer at h
      cases hopts : alookup f.transferOptions current.stop with
      | none => simp [hopts] at h
      | some transfers =>
        simp only [hopts] at h
        cases htimev : alookup transfers nextStop with
        | none => simp [htimev] at h
        | some transferTime =>
          simp only [htimev] at h
          by_cases htruthy : isTruthyStr current.lastTrip = true
          · rw [if_pos htruthy] at h
            simp only [Option.some.injEq] at h
            subst h
            have hlast : current.lastTrip ≠ none := by
              cases hl : current.lastTrip with
              | none => rw [hl] at htruthy; simp [isTruthyStr] at htruthy
              | some s => simp
            refine ⟨?_, ?_, ?_⟩
            · constructor
              · intro _
                exact Or.inl ⟨rfl, hlast⟩
              · intro _
                exact ⟨rfl, rfl⟩
            · intro tripId2 time2 hne2 hsome
              exact Option.noConfusion hsome
            · intro hnone
              exact absurd hnone hlast
          · rw [if_neg htruthy] at h
            simp only [Option.some.injEq] at h
            subst h
            cases hl : current.lastTrip with
            | none =>
              have hnochange :
                  (generalPush current nextStop true transferTime none).transfers =
                    current.transfers ∧
                  (generalPush current nextStop true transferTime
                      none).transferPoints = current.transferPoints := by
                constructor <;> simp [generalPush, hl]
              refine ⟨?_, ?_, ?_⟩
              · constructor
                · rintro ⟨hc1, -⟩
                  rw [hnochange.1] at hc1
                  omega
                · rintro (⟨-, habs⟩ | ⟨⟨t2, habs⟩, -⟩)
                  · exact absurd rfl habs
                  · exact Option.noConfusion habs
              · intro tripId2 time2 hne2 hsome
                exact Option.noConfusion hsome
              · intro _
                exact hnochange
            | some s =>
              have hs : s = "" := by
                by_contra hne
                exact htruthy (by simp [isTruthyStr, hl, hne])
              subst hs
              refine ⟨?_, ?_, ?_⟩
              · constructor
                · intro _
                  exact Or.inl ⟨rfl, by simp⟩
                · intro _
                  constructor <;> simp [generalPush, hl]
              · intro tripId2 time2 hne2 hsome
                exact Option.noConfusion hsome
              · intro hnone
                exact Option.noConfusion hnone

/-- A one-transfer-edge graph for the C1 witness. -/
def c1wFinder : TransitRouteFinder :=
  { stopConnections := [("X", ["Y"])], transferOptions := [("X", [("Y", 2)])] }

/-- A direct-line graph (trip `B`, edge `X → Y`) for the no-increment side of the C1
witness. -/
def c1wLineFinder : TransitRouteFinder :=
  { stopConnections := [("X", ["Y"])],
    directLines := [{ trip_id := "B", stops := ["X", "Y"],
                      travelTimes := [("X-Y", 7)] }] }

/-- A candidate that reached `X` on trip `A` for the C1 witness. -/
def c1wEntry : Entry :=
  { stop := "X", path := ["W", "X"], time := 7, transfers := 1,
    transferPoints := ["W"], lastTrip := some "A" }

/-- The entry pushed when `c1wEntry` takes the pure transfer edge `X → Y`. -/
def c1wNext : Entry :=
  { stop := "Y", path := ["W", "X", "Y"], time := 9, transfers := 2,
    transferPoints := ["W", "X"], lastTrip := none }

/-- The entry pushed when `c1wEntry` takes trip `B`'s direct-line edge `X → Y`. -/
def c1wLineNext : Entry :=
  { stop := "Y", path := ["W", "X", "Y"], time := 14, transfers := 1,
    transferPoints := ["W"], lastTrip := some "B" }

/-- Witness for the amended C1: a pure transfer edge following trip `A` increments the
counter and appends the current stop, while trip `B`'s direct-line edge (a different,
non-empty trip id) leaves both unchanged. -/
theorem claim_C1_amended_witness :
    (c1wNext.transfers = c1wEntry.transfers + 1 ∧
      c1wNext.transferPoints = c1wEntry.transferPoints ++ [c1wEntry.stop]) ∧
    (c1wLineNext.transfers = c1wEntry.transfers ∧
      c1wLineNext.transferPoints = c1wEntry.transferPoints) :=
  ⟨(claim_C1_amended c1wFinder c1wEntry "Y" c1wNext (by decide)).1.mpr
      (Or.inl ⟨by decide, by decide⟩),
   (claim_C1_amended c1wLineFinder c1wEntry "Y" c1wLineNext (by decide)).2.1
      "B" 7 (by decide) (by decide)⟩

/-! ## Claim C2 — pruning and the recorded best result -/

/-- A diamond graph of pure transfer edges: `A → B → D` costs 10, `A → C → D` costs 12,
and FIFO order dequeues the `D`-via-`B` candidate first. -/
def c2finder : TransitRouteFinder :=
  { stopConnections := [("A", ["B", "C"]), ("B", ["D"]), ("C", ["D"])],
    transferOptions := [("A", [("B", 1), ("C", 1)]), ("B", [("D", 9)]),
                        ("C", [("D", 11)])] }

/-- **C2 counterexample**: after four loop iterations the recorded result has total
time 10; the full run ends with total time 12, because a candidate within the 1.5×
bound that reaches the destination overwrites the recorded result unconditionally.
The recorded result's total time therefore increases over the run (10 → 12), refuting
the monotonicity part of the claim. -/
theorem claim_C2_counterexample :
    (goFull c2finder "D" 4 [initialEntry "A"] [] none).1 =
      some { path := ["A", "B", "D"], totalTime := 10, transfers := 0,
             transferPoints := [] } ∧
    findShortestPath c2finder "A" "D" 9 =
      some { path := ["A", "C", "D"], totalTime := 12, transfers := 0,
             transferPoints := [] } ∧
    (10 : Int) < 12 :=
  ⟨by decide, by decide, by decide⟩

/-- **C2 amended**: with a result recorded, a dequeued candidate whose accumulated time
exceeds 1.5× the recorded total time is discarded without expansion (queue tail,
visited set and recorded result unchanged); a candidate within the bound that reaches
the destination replaces the recorded result unconditionally — even by a larger total
time, so the recorded total time is not monotone; and once a result has been recorded
the run always returns a result. -/
theorem claim_C2_amended (f : TransitRouteFinder) (dest : String) (fuel : Nat)
    (current : Entry) (rest : List Entry) (visited : List String) (b : PathResult) :
    (2 * current.time > 3 * b.totalTime →
      goFull f dest (fuel + 1) (current :: rest) visited (some b) =
        goFull f dest fuel rest visited (some b)) ∧
    (¬ 2 * current.time > 3 * b.totalTime → current.stop = dest →
      goFull f dest (fuel + 1) (current :: rest) visited (some b) =
        goFull f dest fuel rest visited
          (some { path := current.path, totalTime := current.time,
                  transfers := current.transfers,
                  transferPoints := current.transferPoints })) ∧
    (∀ queue vis, ((goFull f dest fuel queue vis (some b)).1).isSome = true) := by
  refine ⟨fun hgt => ?_, fun hle hdest => ?_, fun queue vis => ?_⟩
  · have hp : pruneCheck (some b) current = true := by
      simp [pruneCheck, hgt]
    simp [goFull, hp]
  · have hp : pruneCheck (some b) current = false := by
      simp [pruneCheck]
      omega
    simp [goFull, hp, hdest]
  · induction fuel generalizing queue vis b with
    | zero => simp [goFull]
    | succ fuel ih =>
      cases queue with
      | nil => simp [goFull]
      | cons current2 rest2 =>
        rw [goFull]
        by_cases hp : pruneCheck (some b) current2 = true
        · rw [if_pos hp]; exact ih _ _ _
        · rw [if_neg hp]
          by_cases hd : current2.stop = dest
          · rw [if_pos hd]; exact ih _ _ _
          · rw [if_neg hd]
            by_cases hv : current2.stop ∈ vis
            · rw [if_pos hv]; exact ih _ _ _
            · rw [if_neg hv]; exact ih _ _ _

/-- Witness for the amended C2, instantiated on `c2finder`: a candidate at time 20 is
pruned against a recorded total of 10; the in-bound candidate `A → C → D` at time 12
overwrites the recorded total of 10; and a run continued from a recorded result returns
a result. -/
theorem claim_C2_amended_witness :
    (goFull c2finder "D" 1
        [{ stop := "D", path := ["A", "B", "D"], time := 20, transfers := 0,
           transferPoints := [], lastTrip := none }] []
        (some { path := ["A", "B", "D"], totalTime := 10, transfers := 0,
                transferPoints := [] }) =
      goFull c2finder "D" 0 [] []
        (some { path := ["A", "B", "D"], totalTime := 10, transfers := 0,
                transferPoints := [] })) ∧
    (goFull c2finder "D" 1
        [{ stop := "D", path := ["A", "C", "D"], time := 12, transfers := 0,
           transferPoints := [], lastTrip := none }] []
        (some { path := ["A", "B", "D"], totalTime := 10, transfers := 0,
                transferPoints := [] }) =
      goFull c2finder "D" 0 [] []
        (some { path := ["A", "C", "D"], totalTime := 12, transfers := 0,
                transferPoints := [] })) ∧
    ((goFull c2finder "D" 3 [initialEntry "A"] []
        (some { path := ["A", "B", "D"], totalTime := 10, transfers := 0,
                transferPoints := [] })).1).isSome = true := by
  refine ⟨?_, ?_, ?_⟩
  · exact (claim_C2_amended c2finder "D" 0
      { stop := "D", path := ["A", "B", "D"], time := 20, transfers := 0,
        transferPoints := [], lastTrip := none } [] []
      { path := ["A", "B", "D"], totalTime := 10, transfers := 0,
        transferPoints := [] }).1 (by decide)
  · exact (claim_C2_amended c2finder "D" 0
      { stop := "D", path := ["A", "C", "D"], time := 12, transfers := 0,
        transferPoints := [], lastTrip := none } [] []
      { path := ["A", "B", "D"], totalTime := 10, transfers := 0,
        transferPoints := [] }).2.1 (by decide) (by decide)
  · exact (claim_C2_amended c2finder "D" 3 (initialEntry "A") [] []
      { path := ["A", "B", "D"], totalTime := 10, transfers := 0,
        transferPoints := [] }).2.2 [initialEntry "A"] []

/-! ## Claim C3 — the visited-once rule -/

/-- A single pure transfer edge `A → B` for the C3 counterexample. -/
def c3finder : TransitRouteFinder :=
  { stopConnections := [("A", ["B"])], transferOptions := [("A", [("B", 3)])] }

/-- **C3 counterexample**: searching `A → B` on `c3finder`, the stop `B` is dequeued
(its dequeue is what records the returned result), yet the final visited set of the
run is `["A"]` — the destination check precedes the visited-marking, so the first
dequeue of `B` does not mark it visited, refuting "the first time a stop is dequeued
it is marked visited" as universally stated.  (A dequeue discarded by the pruning
bound likewise leaves the stop unmarked.) -/
theorem claim_C3_counterexample :
    goFull c3finder "B" 9 [initialEntry "A"] [] none =
      (some { path := ["A", "B"], totalTime := 3, transfers := 0,
              transferPoints := [] }, ["A"]) ∧
    "B" ∉ (goFull c3finder "B" 9 [initialEntry "A"] [] none).2 :=
  ⟨by decide, by decide⟩

/-- **C3 amended**: a dequeued candidate that survives the pruning and destination
checks is skipped without expansion when its stop is already visited; when its stop is
unvisited it is marked visited and expanded in the same step.  Consequently the visited
set never acquires a duplicate — no stop's outgoing connections are iterated more than
once per run — and a stop already present in the current candidate's path-so-far is
never pushed again on that branch. -/
theorem claim_C3_amended (f : TransitRouteFinder) (dest : String) :
    (∀ fuel current rest visited best,
      pruneCheck best current = false → current.stop ≠ dest →
      current.stop ∈ visited →
      goFull f dest (fuel + 1) (current :: rest) visited best =
        goFull f dest fuel rest visited best) ∧
    (∀ fuel current rest visited best,
      pruneCheck best current = false → current.stop ≠ dest →
      current.stop ∉ visited →
      goFull f dest (fuel + 1) (current :: rest) visited best =
        goFull f dest fuel
          (rest ++ (connectionsOf f current.stop).filterMap (expandEntry f current))
          (visited ++ [current.stop]) best) ∧
    (∀ fuel queue visited best, visited.Nodup →
      ((goFull f dest fuel queue visited best).2).Nodup) ∧
    (∀ current nextStop, nextStop ∈ current.path →
      expandEntry f current nextStop = none) := by
  refine ⟨fun fuel current rest visited best hp hd hv => ?_,
    fun fuel current rest visited best hp hd hv => ?_,
    fun fuel queue visited best hnd => ?_,
    fun current nextStop hmem => ?_⟩
  · simp [goFull, hp, hd, hv]
  · simp [goFull, hp, hd, hv]
  · induction fuel generalizing queue visited best with
    | zero => simpa [goFull] using hnd
    | succ fuel ih =>
      cases queue with
      | nil => simpa [goFull] using hnd
      | cons current rest =>
        rw [goFull]
        by_cases hp : pruneCheck best current = true
        · rw [if_pos hp]; exact ih _ _ _ hnd
        · rw [if_neg hp]
          by_cases hd : current.stop = dest
          · rw [if_pos hd]; exact ih _ _ _ hnd
          · rw [if_neg hd]
            by_cases hv : current.stop ∈ visited
            · rw [if_pos hv]; exact ih _ _ _ hnd
            · rw [if_neg hv]
              refine ih _ _ _ ?_
              rw [List.nodup_append]
              refine ⟨hnd, List.nodup_singleton _, fun a ha hb => ?_⟩
              have : a = current.stop := by simpa using hb
              exact hv (this ▸ ha)
  · simp [expandEntry, hmem]

/-- Witness for the amended C3 on `c3finder`: a visited stop is skipped, the final
visited set of a concrete run has no duplicates, and a stop on the current path is not
pushed again. -/
theorem claim_C3_amended_witness :
    (goFull c3finder "Z" 1 [initialEntry "A"] ["A"] none =
      goFull c3finder "Z" 0 [] ["A"] none) ∧
    ((goFull c3finder "B" 9 [initialEntry "A"] [] none).2).Nodup ∧
    expandEntry c3finder (initialEntry "A") "A" = none := by
  refine ⟨?_, ?_, ?_⟩
  · exact (claim_C3_amended c3finder "Z").1 0 (initialEntry "A") [] ["A"] none
      (by decide) (by decide) (by decide)
  · exact (claim_C3_amended c3finder "B").2.2.1 9 [initialEntry "A"] [] none
      List.nodup_nil
  · exact (claim_C3_amended c3finder "B").2.2.2 (initialEntry "A") "A" (by decide)

/-! ## Claim C6 — station-name resolution with an exact match -/

/-- Membership in `addWithChildren`: the accumulator, the id itself, or one of the
id's children when the id is a parent. -/
theorem mem_addWithChildren (stationMap : List (String × List String))
    (r : List String) (stopId x : String) :
    x ∈ addWithChildren stationMap r stopId ↔
      x ∈ r ∨ x = stopId ∨
        ∃ children, alookup stationMap stopId = some children ∧ x ∈ children := by
  unfold addWithChildren
  cases h : alookup stationMap stopId with
  | none => simp [mem_sadd, h]
  | some children =>
    simp [mem_foldl_sadd, mem_sadd, h]
    tauto

/-- Membership in the direct-match fold of `findAllRelatedStopIds`. -/
theorem mem_foldl_addWithChildren (stationMap : List (String × List String))
    (l : List String) (r : List String) (x : String) :
    x ∈ l.foldl (addWithChildren stationMap) r ↔
      x ∈ r ∨ ∃ stopId ∈ l, x = stopId ∨
        ∃ children, alookup stationMap stopId = some children ∧ x ∈ children := by
  induction l generalizing r with
  | nil => simp
  | cons a l ih =>
    simp only [List.foldl_cons, ih, mem_addWithChildren, List.mem_cons]
    constructor
    · rintro ((h | h | h) | ⟨id, hid, hx⟩)
      · exact Or.inl h
      · exact Or.inr ⟨a, Or.inl rfl, Or.inl h⟩
      · exact Or.inr ⟨a, Or.inl rfl, Or.inr h⟩
      · exact Or.inr ⟨id, Or.inr hid, hx⟩
    · rintro (h | ⟨id, (rfl | hid), hx⟩)
      · exact Or.inl (Or.inl h)
      · rcases hx with h | h
        · exact Or.inl (Or.inr (Or.inl h))
        · exact Or.inl (Or.inr (Or.inr h))
      · exact Or.inr ⟨id, hid, hx⟩

/-- Membership in the fuzzy-widening fold of the exact-match branch. -/
theorem mem_fuzzy_fold (stationName : String)
    (entries : List (String × List String)) (r : List String) (x : String) :
    x ∈ entries.foldl
        (fun result p =>
          if p.1 ≠ stationName ∧ strIncludes p.1 stationName then p.2.foldl sadd result
          else result) r ↔
      x ∈ r ∨ ∃ p ∈ entries,
        p.1 ≠ stationName ∧ strIncludes p.1 stationName = true ∧ x ∈ p.2 := by
  induction entries generalizing r with
  | nil => simp
  | cons a l ih =>
    simp only [List.foldl_cons]
    by_cases hc : a.1 ≠ stationName ∧ strIncludes a.1 stationName
    · rw [if_pos hc]
      simp only [ih, mem_foldl_sadd, List.mem_cons]
      constructor
      · rintro ((h | h) | ⟨p, hp, hx⟩)
        · exact Or.inl h
        · exact Or.inr ⟨a, Or.inl rfl, hc.1, hc.2, h⟩
        · exact Or.inr ⟨p, Or.inr hp, hx⟩
      · rintro (h | ⟨p, (rfl | hp), hx⟩)
        · exact Or.inl (Or.inl h)
        · exact Or.inl (Or.inr hx.2.2)
        · exact Or.inr ⟨p, hp, hx⟩
    · rw [if_neg hc]
      simp only [ih, List.mem_cons]
      constructor
      · rintro (h | ⟨p, hp, hx⟩)
        · exact Or.inl h
        · exact Or.inr ⟨p, Or.inr hp, hx⟩
      · rintro (h | ⟨p, (rfl | hp), hx⟩)
        · exact Or.inl h
        · exact absurd ⟨hx.1, hx.2.1⟩ hc
        · exact Or.inr ⟨p, hp, hx⟩

/-- Stops for the C6 counterexample: `"Main St"` (`P1`), `"Main St—West"` (`P2`, a
parent station), and `P2`'s child platform `C2`. -/
def c6stops : List StopData :=
  [⟨"P1", "Main St", none⟩, ⟨"P2", "Main St—West", none⟩,
   ⟨"C2", "West Platform", some "P2"⟩]

/-- **C6 counterexample**: resolving the exact-matching query `"main st"`,
`"main st—west"` is fuzzily matched and its id `P2` is a parent station with child
`C2`; the claim predicts `C2` is also returned, but the fuzzy pass of the exact-match
branch adds only the matched ids, so the result is exactly `["P1", "P2"]`. -/
theorem claim_C6_counterexample :
    (buildStationMaps c6stops).1 =
      [("main st", ["P1"]), ("main st—west", ["P2"]), ("west platform", ["C2"])] ∧
    (buildStationMaps c6stops).2 = [("P2", ["C2"])] ∧
    strIncludes (normalizeStationName "Main St—West")
      (normalizeStationName "Main St") = true ∧
    findAllRelatedStopIds "main st" (buildStationMaps c6stops).1
      (buildStationMaps c6stops).2 = ["P1", "P2"] ∧
    "C2" ∉ findAllRelatedStopIds "main st" (buildStationMaps c6stops).1
      (buildStationMaps c6stops).2 :=
  ⟨by decide, by decide, by decide, by decide, by decide⟩

/-- **C6 amended**: when an exact normalized-name match exists, the result consists of
exactly: the exactly-matching stop ids, the children of each matched id that is a
parent station, and the ids of every other station whose normalized name contains the
query as a substring — the children of fuzzily-matched parents are *not* included. -/
theorem claim_C6_amended (stationName : String)
    (stationNameToIds stationMap : List (String × List String))
    (directMatches : List String)
    (h : alookup stationNameToIds stationName = some directMatches) (x : String) :
    x ∈ findAllRelatedStopIds stationName stationNameToIds stationMap ↔
      x ∈ directMatches ∨
      (∃ stopId ∈ directMatches,
        ∃ children, alookup stationMap stopId = some children ∧ x ∈ children) ∨
      (∃ p ∈ stationNameToIds,
        p.1 ≠ stationName ∧ strIncludes p.1 stationName = true ∧ x ∈ p.2) := by
  unfold findAllRelatedStopIds
  rw [h]
  rw [mem_fuzzy_fold, mem_foldl_addWithChildren]
  constructor
  · rintro ((h | ⟨id, hid, (rfl | hch)⟩) | h)
    · simp at h
    · exact Or.inl hid
    · exact Or.inr (Or.inl ⟨id, hid, hch⟩)
    · exact Or.inr (Or.inr h)
  · rintro (h | ⟨id, hid, hch⟩ | h)
    · exact Or.inl (Or.inr ⟨x, h, Or.inl rfl⟩)
    · exact Or.inl (Or.inr ⟨id, hid, Or.inr hch⟩)
    · exact Or.inr h

/-- Witness for the amended C6 on the `c6stops` maps: the exact match returns `P1` and
the fuzzy widening returns `P2` (the spec's "Main St" / "Main St—West" example). -/
theorem claim_C6_amended_witness :
    "P1" ∈ findAllRelatedStopIds "main st" (buildStationMaps c6stops).1
      (buildStationMaps c6stops).2 ∧
    "P2" ∈ findAllRelatedStopIds "main st" (buildStationMaps c6stops).1
      (buildStationMaps c6stops).2 := by
  constructor
  · exact (claim_C6_amended "main st" (buildStationMaps c6stops).1
      (buildStationMaps c6stops).2 ["P1"] (by decide) "P1").mpr
      (Or.inl (by decide))
  · exact (claim_C6_amended "main st" (buildStationMaps c6stops).1
      (buildStationMaps c6stops).2 ["P1"] (by decide) "P2").mpr
      (Or.inr (Or.inr ⟨("main st—west", ["P2"]), by decide, by decide, by decide,
        by decide⟩))

/-! ## Claim C9 — `PathResult` invariants -/

/-- Every travel time recorded on the direct lines is nonnegative. -/
def nonnegLineTimes (f : TransitRouteFinder) : Prop :=
  ∀ line ∈ f.directLines, ∀ p ∈ line.travelTimes, (0 : Int) ≤ p.2

/-- Every transfer time in the transfer-option table is nonnegative. -/
def nonnegTransferTimes (f : TransitRouteFinder) : Prop :=
  ∀ p ∈ f.transferOptions, ∀ q ∈ p.2, (0 : Int) ≤ q.2

/-- The per-entry invariant carried by the queue: nonnegative accumulated time and
transfer count strictly below the path length. -/
def entryInv (e : Entry) : Prop := 0 ≤ e.time ∧ e.transfers + 1 ≤ e.path.length

/-- The invariant on the recorded result. -/
def bestInv : Option PathResult → Prop
  | none => True
  | some r => 0 ≤ r.totalTime ∧ r.transfers + 1 ≤ r.path.length

theorem lineTravelTime_nonneg (line : DirectLine)
    (h : ∀ p ∈ line.travelTimes, (0 : Int) ≤ p.2) (a b : String) :
    0 ≤ lineTravelTime line a b := by
  unfold lineTravelTime
  cases h1 : alookup line.travelTimes (a ++ "-" ++ b) with
  | some t => exact h _ (alookup_mem h1)
  | none =>
    cases h2 : alookup line.travelTimes (b ++ "-" ++ a) with
    | some t => exact h _ (alookup_mem h2)
    | none => norm_num

theorem findLineEdge_nonneg (lines : List DirectLine)
    (h : ∀ line ∈ lines, ∀ p ∈ line.travelTimes, (0 : Int) ≤ p.2)
    (a b : String) (tripId : String) (t : Int)
    (hfound : findLineEdge lines a b = some (tripId, t)) : 0 ≤ t := by
  induction lines with
  | nil => simp [findLineEdge] at hfound
  | cons line rest ih =>
    rw [findLineEdge] at hfound
    cases h1 : line.stops.findIdx? (fun s => s = a) with
    | none =>
      simp only [h1] at hfound
      exact ih (fun l hl => h l (List.mem_cons_of_mem _ hl)) hfound
    | some i =>
      cases h2 : line.stops.findIdx? (fun s => s = b) with
      | none =>
        simp only [h1, h2] at hfound
        exact ih (fun l hl => h l (List.mem_cons_of_mem _ hl)) hfound
      | some j =>
        simp only [h1, h2] at hfound
        by_cases hadj : i = j + 1 ∨ j = i + 1
        · rw [if_pos hadj] at hfound
          simp only [Option.some.injEq, Prod.mk.injEq] at hfound
          rw [← hfound.2]
          exact lineTravelTime_nonneg line (h line (List.mem_cons_self _ _)) a b
        · rw [if_neg hadj] at hfound
          exact ih (fun l hl => h l (List.mem_cons_of_mem _ hl)) hfound

/-- The transfer branch preserves the per-entry invariant, given nonnegative transfer
times. -/
theorem expandTransfer_inv (f : TransitRouteFinder) (ht : nonnegTransferTimes f)
    (e e2 : Entry) (n : String) (tripId : Option String)
    (h : expandTransfer f e n tripId = some e2) (hinv : entryInv e) : entryInv e2 := by
  obtain ⟨htime, htr⟩ := hinv
  unfold expandTransfer at h
  cases hopts : alookup f.transferOptions e.stop with
  | none => simp [hopts] at h
  | some transfers =>
    simp only [hopts] at h
    cases htimev : alookup transfers n with
    | none => simp [htimev] at h
    | some transferTime =>
      simp only [htimev] at h
      have ht0 : 0 ≤ transferTime :=
        ht _ (alookup_mem hopts) _ (alookup_mem htimev)
      by_cases htruthy : isTruthyStr e.lastTrip = true
      · rw [if_pos htruthy] at h
        simp only [Option.some.injEq] at h
        subst h
        refine ⟨by simpa using by omega, ?_⟩
        simp only [List.length_append, List.length_cons, List.length_nil]
        omega
      · rw [if_neg htruthy] at h
        simp only [Option.some.injEq] at h
        subst h
        constructor
        · simp only [generalPush]
          omega
        · simp only [generalPush, List.length_append, List.length_cons,
            List.length_nil]
          split <;> omega

/-- A successful expansion preserves the per-entry invariant, given nonnegative edge
times. -/
theorem expandEntry_inv (f : TransitRouteFinder)
    (hl : nonnegLineTimes f) (ht : nonnegTransferTimes f)
    (e e2 : Entry) (n : String) (h : expandEntry f e n = some e2)
    (hinv : entryInv e) : entryInv e2 := by
  by_cases hmem : n ∈ e.path
  · simp [expandEntry, hmem] at h
  · rw [expandEntry, if_neg hmem] at h
    cases hline : findLineEdge f.directLines e.stop n with
    | some p =>
      obtain ⟨tripId, t⟩ := p
      simp only [hline] at h
      by_cases htid : tripId = ""
      · subst htid
        rw [if_neg (fun hc => hc rfl)] at h
        exact expandTransfer_inv f ht e e2 n (some "") h hinv
      · rw [if_pos htid] at h
        simp only [Option.some.injEq] at h
        subst h
        obtain ⟨htime, htr⟩ := hinv
        have ht0 : 0 ≤ t :=
          findLineEdge_nonneg f.directLines hl e.stop n tripId t hline
        constructor
        · simp only [generalPush]
          omega
        · simp only [generalPush, Bool.false_and, Bool.false_eq_true, if_false,
            List.length_append, List.length_cons, List.length_nil]
          omega
    | none =>
      simp only [hline] at h
      exact expandTransfer_inv f ht e e2 n none h hinv

/-- The queue loop preserves the invariants down to the recorded result. -/
theorem goFull_inv (f : TransitRouteFinder) (dest : String)
    (hl : nonnegLineTimes f) (ht : nonnegTransferTimes f) :
    ∀ fuel queue visited best, (∀ e ∈ queue, entryInv e) → bestInv best →
      bestInv (goFull f dest fuel queue visited best).1 := by
  intro fuel
  induction fuel with
  | zero => intro queue visited best _ hb; simpa [goFull] using hb
  | succ fuel ih =>
    intro queue visited best hq hb
    cases queue with
    | nil => simpa [goFull] using hb
    | cons current rest =>
      rw [goFull]
      have hcur : entryInv current := hq current (List.mem_cons_self _ _)
      have hrest : ∀ e ∈ rest, entryInv e :=
        fun e he => hq e (List.mem_cons_of_mem _ he)
      by_cases hp : pruneCheck best current = true
      · rw [if_pos hp]; exact ih rest visited best hrest hb
      · rw [if_neg hp]
        by_cases hd : current.stop = dest
        · rw [if_pos hd]
          exact ih rest visited _ hrest ⟨hcur.1, hcur.2⟩
        · rw [if_neg hd]
          by_cases hv : current.stop ∈ visited
          · rw [if_pos hv]; exact ih rest visited best hrest hb
          · rw [if_neg hv]
            refine ih _ _ best (fun e he => ?_) hb
            rcases List.mem_append.1 he with he | he
            · exact hrest e he
            · obtain ⟨n, _, hsome⟩ := List.mem_filterMap.1 he
              exact expandEntry_inv f hl ht current e n hsome hcur

/-- **C9 amended**: under the claim's preconditions *plus* the additional assumption
that every recorded per-edge travel time is nonnegative (the counterexample shows the
well-formedness of the arrival strings alone does not give this), every result of
`findShortestPath` has `totalTime ≥ 0` and `transfers ≤ path length − 1`.  The
transfer-count bound needs no time assumption at all beyond what is stated here. -/
theorem claim_C9_amended (f : TransitRouteFinder) (start dest : String) (fuel : Nat)
    (hl : nonnegLineTimes f) (ht : nonnegTransferTimes f) (r : PathResult)
    (h : findShortestPath f start dest fuel = some r) :
    0 ≤ r.totalTime ∧ r.transfers + 1 ≤ r.path.length := by
  unfold findShortestPath at h
  by_cases hs : (alookup f.stopConnections start).isNone
  · rw [if_pos hs] at h; exact Option.noConfusion h
  · rw [if_neg hs] at h
    have := goFull_inv f dest hl ht fuel [initialEntry start] [] none
      (by
        intro e he
        simp only [List.mem_singleton] at he
        subst he
        exact ⟨le_refl 0, by simp [initialEntry]⟩)
      trivial
    rw [h] at this
    exact this

/-- One trip whose second arrival wraps: `"25:00:00"` (a legal past-midnight hour) to
`"00:30:00"`. -/
def c9rows : List StopVisit :=
  [⟨"T", "X", "25:00:00", 1⟩, ⟨"T", "Y", "00:30:00", 2⟩]

/-- The route finder built from `c9rows`. -/
def c9finder : TransitRouteFinder :=
  (processStopTimes c9rows TransitRouteFinder.empty).getD TransitRouteFinder.empty

/-- **C9 counterexample**: both arrival strings are well-formed (they parse), no
transfer rows are supplied (so the `min_transfer_time ≥ 0` precondition holds
vacuously), yet the recorded edge time is `round((1800 − 90000 + 86400) / 60) = −30`
and the returned result has `totalTime = −30 < 0`. -/
theorem claim_C9_counterexample :
    processStopTimes c9rows TransitRouteFinder.empty = some c9finder ∧
    parseTime "25:00:00" = some 90000 ∧
    parseTime "00:30:00" = some 1800 ∧
    c9finder.transferOptions = [] ∧
    findShortestPath c9finder "X" "Y" 9 =
      some { path := ["X", "Y"], totalTime := -30, transfers := 0,
             transferPoints := [] } ∧
    ¬ (0 : Int) ≤ -30 :=
  ⟨by decide, by decide, by decide, by decide, by decide, by decide⟩

/-- Witness for the amended C9 on `c1finder` (all its recorded edge times are 5 and 4,
its transfer table is empty): the returned result satisfies both invariants. -/
theorem claim_C9_amended_witness :
    0 ≤ (5 : Int) + 4 ∧
    ({ path := ["S1", "S2", "S3"], totalTime := 9, transfers := 0,
       transferPoints := [] } : PathResult).transfers + 1 ≤ 3 := by
  have h := claim_C9_amended c1finder "S1" "S3" 9
    (by unfold nonnegLineTimes; decide)
    (by unfold nonnegTransferTimes; decide)
    { path := ["S1", "S2", "S3"], totalTime := 9, transfers := 0,
      transferPoints := [] }
    (by decide)
  exact ⟨h.1, h.2⟩

/-! ## Claim C7 — `findPaths` -/

theorem mem_insertLE {α : Type} (le : α → α → Bool) (x y : α) (l : List α) :
    y ∈ insertLE le x l ↔ y = x ∨ y ∈ l := by
  induction l with
  | nil => simp [insertLE]
  | cons a l ih =>
    unfold insertLE
    by_cases h : le a x
    · simp only [if_pos h, List.mem_cons, ih]
      tauto
    · simp only [if_neg h, List.mem_cons]

theorem mem_stableSortBy {α : Type} (le : α → α → Bool) (l : List α) (x : α) :
    x ∈ stableSortBy le l ↔ x ∈ l := by
  suffices h : ∀ acc, x ∈ l.foldl (fun acc y => insertLE le y acc) acc ↔
      x ∈ acc ∨ x ∈ l by
    simpa [stableSortBy] using h []
  induction l with
  | nil => simp
  | cons a l ih =>
    intro acc
    simp only [List.foldl_cons, ih, mem_insertLE, List.mem_cons]
    tauto

theorem pairwise_insertLE {α : Type} (le : α → α → Bool)
    (htot : ∀ a b, le a b = true ∨ le b a = true)
    (htrans : ∀ a b c, le a b = true → le b c = true → le a c = true)
    (x : α) (l : List α) (h : l.Pairwise (fun a b => le a b = true)) :
    (insertLE le x l).Pairwise (fun a b => le a b = true) := by
  induction l with
  | nil => simp [insertLE]
  | cons a l ih =>
    rw [List.pairwise_cons] at h
    unfold insertLE
    by_cases hle : le a x
    · rw [if_pos hle]
      rw [List.pairwise_cons]
      refine ⟨fun b hb => ?_, ih h.2⟩
      rcases (mem_insertLE le x b l).1 hb with rfl | hb
      · exact hle
      · exact h.1 b hb
    · rw [if_neg hle]
      have hxa : le x a = true := by
        rcases htot a x with h1 | h1
        · exact absurd h1 hle
        · exact h1
      rw [List.pairwise_cons]
      refine ⟨fun b hb => ?_, List.pairwise_cons.2 h⟩
      rcases List.mem_cons.1 hb with rfl | hb
      · exact hxa
      · exact htrans x a b hxa (h.1 b hb)

theorem pairwise_stableSortBy {α : Type} (le : α → α → Bool)
    (htot : ∀ a b, le a b = true ∨ le b a = true)
    (htrans : ∀ a b c, le a b = true → le b c = true → le a c = true)
    (l : List α) : (stableSortBy le l).Pairwise (fun a b => le a b = true) := by
  suffices h : ∀ acc, acc.Pairwise (fun a b => le a b = true) →
      (l.foldl (fun acc y => insertLE le y acc) acc).Pairwise
        (fun a b => le a b = true) by
    exact h [] List.Pairwise.nil
  induction l with
  | nil => intro acc hacc; simpa using hacc
  | cons a l ih =>
    intro acc hacc
    simp only [List.foldl_cons]
    exact ih _ (pairwise_insertLE le htot htrans a acc hacc)

/-- Everything `findPathsInner` returns is either carried in from the accumulator or
produced by the single-pair search on a non-identical pair. -/
theorem findPathsInner_spec (f : TransitRouteFinder) (fuel : Nat) (originId : String)
    (maxPaths : Nat) :
    ∀ dests acc r, r ∈ findPathsInner f fuel originId maxPaths dests acc →
      r ∈ acc ∨ ∃ destId ∈ dests, originId ≠ destId ∧
        findShortestPath f originId destId fuel = some r := by
  intro dests
  induction dests with
  | nil => intro acc r hr; exact Or.inl hr
  | cons d ds ih =>
    intro acc r hr
    rw [findPathsInner] at hr
    by_cases heq : originId = d
    · rw [if_pos heq] at hr
      rcases ih acc r hr with h | ⟨d2, hd2, hne, hfound⟩
      · exact Or.inl h
      · exact Or.inr ⟨d2, List.mem_cons_of_mem _ hd2, hne, hfound⟩
    · rw [if_neg heq] at hr
      cases hsearch : findShortestPath f originId d fuel with
      | some result =>
        simp only [hsearch] at hr
        by_cases hbreak : maxPaths ≤ (acc ++ [result]).length
        · rw [if_pos hbreak] at hr
          rcases List.mem_append.1 hr with h | h
          · exact Or.inl h
          · simp only [List.mem_singleton] at h
            exact Or.inr ⟨d, List.mem_cons_self _ _, heq, h ▸ hsearch⟩
        · rw [if_neg hbreak] at hr
          rcases ih _ r hr with h | ⟨d2, hd2, hne, hfound⟩
          · rcases List.mem_append.1 h with h | h
            · exact Or.inl h
            · simp only [List.mem_singleton] at h
              exact Or.inr ⟨d, List.mem_cons_self _ _, heq, h ▸ hsearch⟩
          · exact Or.inr ⟨d2, List.mem_cons_of_mem _ hd2, hne, hfound⟩
      | none =>
        simp only [hsearch] at hr
        by_cases hbreak : maxPaths ≤ acc.length
        · rw [if_pos hbreak] at hr
          exact Or.inl hr
        · rw [if_neg hbreak] at hr
          rcases ih acc r hr with h | ⟨d2, hd2, hne, hfound⟩
          · exact Or.inl h
          · exact Or.inr ⟨d2, List.mem_cons_of_mem _ hd2, hne, hfound⟩

/-- Everything `findPathsOuter` returns is carried in or produced by some explored
pair. -/
theorem findPathsOuter_spec (f : TransitRouteFinder) (fuel : Nat) (maxPaths : Nat)
    (dests : List String) :
    ∀ origins acc r, r ∈ findPathsOuter f fuel maxPaths dests origins acc →
      r ∈ acc ∨ ∃ originId ∈ origins, ∃ destId ∈ dests, originId ≠ destId ∧
        findShortestPath f originId destId fuel = some r := by
  intro origins
  induction origins with
  | nil => intro acc r hr; exact Or.inl hr
  | cons o os ih =>
    intro acc r hr
    rw [findPathsOuter] at hr
    by_cases hbreak : maxPaths ≤ (findPathsInner f fuel o maxPaths dests acc).length
    · rw [if_pos hbreak] at hr
      rcases findPathsInner_spec f fuel o maxPaths dests acc r hr with h | ⟨d, hd, hne, hf⟩
      · exact Or.inl h
      · exact Or.inr ⟨o, List.mem_cons_self _ _, d, hd, hne, hf⟩
    · rw [if_neg hbreak] at hr
      rcases ih _ r hr with h | ⟨o2, ho2, d, hd, hne, hf⟩
      · rcases findPathsInner_spec f fuel o maxPaths dests acc r h with h2 | ⟨d, hd, hne, hf⟩
        · exact Or.inl h2
        · exact Or.inr ⟨o, List.mem_cons_self _ _, d, hd, hne, hf⟩
      · exact Or.inr ⟨o2, List.mem_cons_of_mem _ ho2, d, hd, hne, hf⟩

/-- While fewer than `maxPaths` results are collected, the inner loop never overshoots
`maxPaths`. -/
theorem findPathsInner_length (f : TransitRouteFinder) (fuel : Nat) (originId : String)
    (maxPaths : Nat) :
    ∀ dests acc, acc.length < maxPaths →
      (findPathsInner f fuel originId maxPaths dests acc).length ≤ maxPaths := by
  intro dests
  induction dests with
  | nil => intro acc hacc; rw [findPathsInner]; omega
  | cons d ds ih =>
    intro acc hacc
    rw [findPathsInner]
    by_cases heq : originId = d
    · rw [if_pos heq]; exact ih acc hacc
    · rw [if_neg heq]
      cases hsearch : findShortestPath f originId d fuel with
      | some result =>
        simp only
        by_cases hbreak : maxPaths ≤ (acc ++ [result]).length
        · rw [if_pos hbreak]
          simp only [List.length_append, List.length_singleton]
          omega
        · rw [if_neg hbreak]
          refine ih _ ?_
          simp only [List.length_append, List.length_singleton] at hbreak ⊢
          omega
      | none =>
        simp only
        by_cases hbreak : maxPaths ≤ acc.length
        · omega
        · rw [if_neg hbreak]
          exact ih acc (by omega)

/-- While fewer than `maxPaths` results are collected, the outer loop never overshoots
`maxPaths`. -/
theorem findPathsOuter_length (f : TransitRouteFinder) (fuel : Nat) (maxPaths : Nat)
    (dests : List String) :
    ∀ origins acc, acc.length < maxPaths →
      (findPathsOuter f fuel maxPaths dests origins acc).length ≤ maxPaths := by
  intro origins
  induction origins with
  | nil => intro acc hacc; rw [findPathsOuter]; omega
  | cons o os ih =>
    intro acc hacc
    rw [findPathsOuter]
    have hinner := findPathsInner_length f fuel o maxPaths dests acc hacc
    by_cases hbreak : maxPaths ≤ (findPathsInner f fuel o maxPaths dests acc).length
    · rw [if_pos hbreak]; exact hinner
    · rw [if_neg hbreak]
      exact ih _ (by omega)

/-- **C7**: `findPaths` collects results by iterating origins in the outer loop and
destinations in the inner loop with identical-id pairs skipped and an early break once
`maxPaths` results are collected, then returns the collected results sorted ascending
by total time and truncated to `maxPaths`: the returned list is sorted, no longer than
`maxPaths`, every element comes from the single-pair search on some origin/destination
pair with distinct ids, and (for `maxPaths ≥ 1`) the collection phase itself never
gathers more than `maxPaths` results. -/
theorem claim_C7 (f : TransitRouteFinder) (fuel : Nat)
    (originStopIds destStopIds : List String) (maxPaths : Nat) :
    findPaths f fuel originStopIds destStopIds maxPaths =
      (stableSortBy (fun a b => a.totalTime ≤ b.totalTime)
        (findPathsOuter f fuel maxPaths destStopIds originStopIds [])).take maxPaths ∧
    List.Pairwise (fun a b : PathResult => a.totalTime ≤ b.totalTime)
      (findPaths f fuel originStopIds destStopIds maxPaths) ∧
    (findPaths f fuel originStopIds destStopIds maxPaths).length ≤ maxPaths ∧
    (∀ r ∈ findPaths f fuel originStopIds destStopIds maxPaths,
      ∃ originId ∈ originStopIds, ∃ destId ∈ destStopIds,
        originId ≠ destId ∧ findShortestPath f originId destId fuel = some r) ∧
    (1 ≤ maxPaths →
      (findPathsOuter f fuel maxPaths destStopIds originStopIds []).length ≤
        maxPaths) := by
  refine ⟨rfl, ?_, ?_, ?_, ?_⟩
  · have hsorted := pairwise_stableSortBy
      (fun a b : PathResult => decide (a.totalTime ≤ b.totalTime))
      (fun a b => by
        by_cases h : a.totalTime ≤ b.totalTime
        · exact Or.inl (by simpa using h)
        · exact Or.inr (by simp; omega))
      (fun a b c h1 h2 => by
        simp only [decide_eq_true_eq] at h1 h2 ⊢
        omega)
      (findPathsOuter f fuel maxPaths destStopIds originStopIds [])
    have htake := List.Pairwise.sublist (List.take_sublist maxPaths _) hsorted
    exact htake.imp (by simp)
  · unfold findPaths
    rw [List.length_take]
    exact min_le_left _ _
  · intro r hr
    unfold findPaths at hr
    have hmem := List.mem_of_mem_take hr
    rw [mem_stableSortBy] at hmem
    rcases findPathsOuter_spec f fuel maxPaths destStopIds originStopIds [] r hmem with
      h | h
    · simp at h
    · exact h
  · intro hmax
    exact findPathsOuter_length f fuel maxPaths destStopIds originStopIds []
      (by simpa using hmax)

/-- Witness for C7 on `c2finder`, searching from `{A}` to `{A, D}` with `maxPaths = 1`:
the identical pair is skipped and the single produced result comes from the `A → D`
search. -/
theorem claim_C7_witness :
    findPaths c2finder 9 ["A"] ["A", "D"] 1 =
      [{ path := ["A", "C", "D"], totalTime := 12, transfers := 0,
         transferPoints := [] }] ∧
    (findPaths c2finder 9 ["A"] ["A", "D"] 1).length ≤ 1 ∧
    (findPathsOuter c2finder 9 1 ["A", "D"] ["A"] []).length ≤ 1 := by
  refine ⟨by decide, ?_, ?_⟩
  · exact (claim_C7 c2finder 9 ["A"] ["A", "D"] 1).2.2.1
  · exact (claim_C7 c2finder 9 ["A"] ["A", "D"] 1).2.2.2.2 (by omega)

/-! ## Claim C8 — absent results -/

/-- `b` is directly reachable from `a` in the adjacency index. -/
def adjacentB (f : TransitRouteFinder) (a b : String) : Bool :=
  (connectionsOf f a).contains b

/-- The stop sequence follows adjacency edges step by step. -/
def chainB (f : TransitRouteFinder) : List String → Bool
  | [] => true
  | [_] => true
  | a :: b :: rest => adjacentB f a b && chainB f (b :: rest)

/-- The transfer branch extends the path by exactly the expanded neighbour. -/
theorem expandTransfer_shape (f : TransitRouteFinder) (e e2 : Entry) (n : String)
    (tripId : Option String) (h : expandTransfer f e n tripId = some e2) :
    e2.path = e.path ++ [n] ∧ e2.stop = n := by
  unfold expandTransfer at h
  cases hopts : alookup f.transferOptions e.stop with
  | none => simp [hopts] at h
  | some transfers =>
    simp only [hopts] at h
    cases htimev : alookup transfers n with
    | none => simp [htimev] at h
    | some transferTime =>
      simp only [htimev] at h
      by_cases htruthy : isTruthyStr e.lastTrip = true
      · rw [if_pos htruthy] at h
        simp only [Option.some.injEq] at h
        subst h
        exact ⟨rfl, rfl⟩
      · rw [if_neg htruthy] at h
        simp only [Option.some.injEq] at h
        subst h
        exact ⟨rfl, rfl⟩

/-- A successful expansion extends the path by exactly the expanded neighbour. -/
theorem expandEntry_shape (f : TransitRouteFinder) (e e2 : Entry) (n : String)
    (h : expandEntry f e n = some e2) :
    e2.path = e.path ++ [n] ∧ e2.stop = n := by
  by_cases hmem : n ∈ e.path
  · simp [expandEntry, hmem] at h
  · rw [expandEntry, if_neg hmem] at h
    cases hline : findLineEdge f.directLines e.stop n with
    | some p =>
      obtain ⟨tripId, t⟩ := p
      simp only [hline] at h
      by_cases htid : tripId = ""
      · subst htid
        rw [if_neg (fun hc => hc rfl)] at h
        exact expandTransfer_shape f e e2 n (some "") h
      · rw [if_pos htid] at h
        simp only [Option.some.injEq] at h
        subst h
        exact ⟨rfl, rfl⟩
    | none =>
      simp only [hline] at h
      exact expandTransfer_shape f e e2 n none h

/-- Appending an adjacent stop preserves the chain property. -/
theorem chainB_append (f : TransitRouteFinder) (p : List String) (s n : String)
    (hc : chainB f p = true) (hl : p.getLast? = some s)
    (ha : adjacentB f s n = true) : chainB f (p ++ [n]) = true := by
  induction p generalizing s with
  | nil => simp at hl
  | cons a rest ih =>
    cases rest with
    | nil =>
      simp only [List.getLast?_singleton, Option.some.injEq] at hl
      subst hl
      simpa [chainB] using ha
    | cons b rest2 =>
      rw [chainB] at hc
      simp only [Bool.and_eq_true] at hc
      have hl2 : (b :: rest2).getLast? = some s := by
        simpa [List.getLast?_cons_cons] using hl
      have := ih s hc.2 hl2 ha
      simpa [chainB, hc.1] using this

/-- The queue loop only ever records results whose stop sequence is an adjacency chain
from `start` to `dest`. -/
theorem goFull_sound (f : TransitRouteFinder) (start dest : String) :
    ∀ fuel queue visited best,
      (∀ e ∈ queue, chainB f e.path = true ∧ e.path.head? = some start ∧
        e.path.getLast? = some e.stop) →
      (∀ r, best = some r → chainB f r.path = true ∧ r.path.head? = some start ∧
        r.path.getLast? = some dest) →
      ∀ r, (goFull f dest fuel queue visited best).1 = some r →
        chainB f r.path = true ∧ r.path.head? = some start ∧
          r.path.getLast? = some dest := by
  intro fuel
  induction fuel with
  | zero =>
    intro queue visited best _ hb r hr
    exact hb r (by simpa [goFull] using hr)
  | succ fuel ih =>
    intro queue visited best hq hb r hr
    cases queue with
    | nil => exact hb r (by simpa [goFull] using hr)
    | cons current rest =>
      rw [goFull] at hr
      have hcur := hq current (List.mem_cons_self _ _)
      have hrest : ∀ e ∈ rest, chainB f e.path = true ∧ e.path.head? = some start ∧
          e.path.getLast? = some e.stop :=
        fun e he => hq e (List.mem_cons_of_mem _ he)
      by_cases hp : pruneCheck best current = true
      · rw [if_pos hp] at hr
        exact ih rest visited best hrest hb r hr
      · rw [if_neg hp] at hr
        by_cases hd : current.stop = dest
        · rw [if_pos hd] at hr
          refine ih rest visited _ hrest ?_ r hr
          rintro r2 hr2
          simp only [Option.some.injEq] at hr2
          subst hr2
          exact ⟨hcur.1, hcur.2.1, hd ▸ hcur.2.2⟩
        · rw [if_neg hd] at hr
          by_cases hv : current.stop ∈ visited
          · rw [if_pos hv] at hr
            exact ih rest visited best hrest hb r hr
          · rw [if_neg hv] at hr
            refine ih _ _ best (fun e he => ?_) hb r hr
            rcases List.mem_append.1 he with he | he
            · exact hrest e he
            · obtain ⟨n, hn, hsome⟩ := List.mem_filterMap.1 he
              obtain ⟨hpath, hstop⟩ := expandEntry_shape f current e n hsome
              have hadj : adjacentB f current.stop n = true := by
                simpa [adjacentB] using hn
              refine ⟨?_, ?_, ?_⟩
              · rw [hpath]
                exact chainB_append f current.path current.stop n hcur.1
                  hcur.2.2 hadj
              · rw [hpath]
                cases hpth : current.path with
                | nil => rw [hpth] at hcur; simp at hcur
                | cons x xs =>
                  rw [hpth] at hcur
                  simpa using hcur.2.1
              · rw [hpath, hstop]
                simp
/-- **C8**: `findShortestPath` returns no result when the start stop has no adjacency
entry; any returned result is an adjacency chain from the start to the end stop (so a
run that never reaches the end returns nothing); consequently, for two stops with no
adjacency path between them, `findPaths` returns the empty list (and, being a total
function, raises no error). -/
theorem claim_C8 (f : TransitRouteFinder) (start dest : String) (fuel : Nat) :
    ((alookup f.stopConnections start).isNone →
      findShortestPath f start dest fuel = none) ∧
    (∀ r, findShortestPath f start dest fuel = some r →
      chainB f r.path = true ∧ r.path.head? = some start ∧
        r.path.getLast? = some dest) ∧
    (∀ a b maxPaths,
      (¬ ∃ p, chainB f p = true ∧ p.head? = some a ∧ p.getLast? = some b) →
      findPaths f fuel [a] [b] maxPaths = []) := by
  have hsound : ∀ r, findShortestPath f start dest fuel = some r →
      chainB f r.path = true ∧ r.path.head? = some start ∧
        r.path.getLast? = some dest := by
    intro r hr
    unfold findShortestPath at hr
    by_cases hs : (alookup f.stopConnections start).isNone
    · rw [if_pos hs] at hr; exact Option.noConfusion hr
    · rw [if_neg hs] at hr
      refine goFull_sound f start dest fuel [initialEntry start] [] none ?_ ?_ r hr
      · intro e he
        simp only [List.mem_singleton] at he
        subst he
        exact ⟨rfl, rfl, rfl⟩
      · intro r2 hr2
        exact Option.noConfusion hr2
  refine ⟨fun hs => ?_, hsound, fun a b maxPaths hno => ?_⟩
  · unfold findShortestPath
    rw [if_pos hs]
  · have hnone : ∀ s d, (¬ ∃ p, chainB f p = true ∧ p.head? = some s ∧
        p.getLast? = some d) → findShortestPath f s d fuel = none := by
      intro s d hno2
      cases hr : findShortestPath f s d fuel with
      | none => rfl
      | some r =>
        have h2 : ∀ r2, findShortestPath f s d fuel = some r2 →
            chainB f r2.path = true ∧ r2.path.head? = some s ∧
              r2.path.getLast? = some d := by
          intro r2 hr2
          unfold findShortestPath at hr2
          by_cases hs : (alookup f.stopConnections s).isNone
          · rw [if_pos hs] at hr2; exact Option.noConfusion hr2
          · rw [if_neg hs] at hr2
            refine goFull_sound f s d fuel [initialEntry s] [] none ?_ ?_ r2 hr2
            · intro e he
              simp only [List.mem_singleton] at he
              subst he
              exact ⟨rfl, rfl, rfl⟩
            · intro r3 hr3
              exact Option.noConfusion hr3
        obtain ⟨hc, hh, hl⟩ := h2 r hr
        exact absurd ⟨r.path, hc, hh, hl⟩ hno2
    unfold findPaths findPathsOuter findPathsInner
    by_cases hab : a = b
    · rw [if_pos hab]
      simp [findPathsInner, findPathsOuter, stableSortBy]
    · rw [if_neg hab]
      rw [hnone a b hno]
      simp [findPathsInner, findPathsOuter, stableSortBy]

/-- In `c3finder` (only edge `A → B`) there is no adjacency chain from `B` to `A`. -/
theorem c3finder_no_chain :
    ¬ ∃ p, chainB c3finder p = true ∧ p.head? = some "B" ∧
      p.getLast? = some "A" := by
  rintro ⟨p, hc, hh, hl⟩
  cases p with
  | nil => simp at hh
  | cons b rest =>
    have hb : b = "B" := by simpa using hh
    subst hb
    cases rest with
    | nil => simp at hl
    | cons c rest2 =>
      rw [chainB] at hc
      have hadj : adjacentB c3finder "B" c = false := rfl
      rw [hadj] at hc
      simp at hc

/-- Witness for C8: a start stop without adjacency yields no result; a found result is
a chain from start to end; an unreachable pair yields an empty `findPaths` list. -/
theorem claim_C8_witness :
    findShortestPath c2finder "Z" "D" 5 = none ∧
    (chainB c2finder ["A", "C", "D"] = true ∧
      (["A", "C", "D"] : List String).head? = some "A" ∧
      (["A", "C", "D"] : List String).getLast? = some "D") ∧
    findPaths c3finder 5 ["B"] ["A"] 3 = [] := by
  refine ⟨?_, ?_, ?_⟩
  · exact (claim_C8 c2finder "Z" "D" 5).1 (by decide)
  · exact (claim_C8 c2finder "A" "D" 9).2.1
      { path := ["A", "C", "D"], totalTime := 12, transfers := 0,
        transferPoints := [] } (by decide)
  · exact (claim_C8 c3finder "B" "A" 5).2.2 "B" "A" 3 c3finder_no_chain

/-! ## Claim C5 — variant transfers -/

/-- The transfer table entry for an ordered pair:
`this.transferOptions.get(fromId)` followed by `.get(toId)`. -/
def transferOptionFor (f : TransitRouteFinder) (fromId toId : String) : Option Int :=
  (alookup f.transferOptions fromId).bind (fun m => alookup m toId)

/-- Effect of one variant pair on the transfer table. -/
theorem transferOptionFor_addVariantPair (f : TransitRouteFinder) (a b s t : String) :
    transferOptionFor (addVariantPair f a b) s t =
      if a = s ∧ b = t then some 2 else transferOptionFor f s t := by
  unfold transferOptionFor addVariantPair
  simp only
  rw [alookup_aupdate]
  by_cases has : a = s
  · subst has
    rw [if_pos rfl, alookup_ensureKey, if_pos rfl]
    simp only [Option.getD_some, Option.map_some', Option.some_bind]
    rw [alookup_aset]
    by_cases hbt : b = t
    · simp [hbt]
    · rw [if_neg hbt]
      simp only [true_and]
      rw [if_neg hbt]
      cases h : alookup f.transferOptions a with
      | none => simp [h]
      | some m => simp [h]
  · rw [if_neg has, alookup_ensureKey, if_neg has]
    have hcond : ¬ (a = s ∧ b = t) := fun h => has h.1
    rw [if_neg hcond]

/-- Effect of one variant pair on the adjacency lists. -/
theorem connectionsOf_addVariantPair (f : TransitRouteFinder) (a b s : String) :
    connectionsOf (addVariantPair f a b) s =
      if a = s then sadd (connectionsOf f a) b else connectionsOf f s := by
  unfold connectionsOf addVariantPair
  simp only
  rw [alookup_aupdate]
  by_cases has : a = s
  · rw [if_pos has, alookup_ensureKey, if_pos has]
    subst has
    simp
  · rw [if_neg has, alookup_ensureKey, if_neg has, if_neg has]

/-- The inner (destination) loop of `addAllVariantPairs` for a fixed `fromId`. -/
def variantInnerFold (fromId : String) (vs : List String) (f : TransitRouteFinder) :
    TransitRouteFinder :=
  vs.foldl (fun f toId => if fromId ≠ toId then addVariantPair f fromId toId else f) f

theorem addAllVariantPairs_eq (f : TransitRouteFinder) (vs : List String) :
    addAllVariantPairs f vs = vs.foldl (fun f fromId => variantInnerFold fromId vs f) f :=
  rfl

/-- Every table entry written by the inner loop has value 2, so each entry either
becomes `some 2` or keeps its previous value. -/
theorem tof_variantInnerFold_cases (fromId s t : String) :
    ∀ (vs : List String) (f : TransitRouteFinder),
      transferOptionFor (variantInnerFold fromId vs f) s t = some 2 ∨
      transferOptionFor (variantInnerFold fromId vs f) s t =
        transferOptionFor f s t := by
  intro vs
  induction vs with
  | nil => intro f; exact Or.inr rfl
  | cons x xs ih =>
    intro f
    unfold variantInnerFold
    simp only [List.foldl_cons]
    rcases ih (if fromId ≠ x then addVariantPair f fromId x else f) with h | h
    · exact Or.inl h
    · rw [variantInnerFold] at h
      rw [h]
      by_cases hx : fromId ≠ x
      · rw [if_pos hx, transferOptionFor_addVariantPair]
        by_cases hc : fromId = s ∧ x = t
        · rw [if_pos hc]; exact Or.inl rfl
        · rw [if_neg hc]; exact Or.inr rfl
      · rw [if_neg hx]; exact Or.inr rfl

/-- Same closure property for the outer loop. -/
theorem tof_addAllVariantPairs_cases (s t : String) :
    ∀ (vs : List String) (f : TransitRouteFinder),
      transferOptionFor (addAllVariantPairs f vs) s t = some 2 ∨
      transferOptionFor (addAllVariantPairs f vs) s t = transferOptionFor f s t := by
  suffices h : ∀ (l vs : List String) (f : TransitRouteFinder),
      transferOptionFor (l.foldl (fun f fromId => variantInnerFold fromId vs f) f) s t =
        some 2 ∨
      transferOptionFor (l.foldl (fun f fromId => variantInnerFold fromId vs f) f) s t =
        transferOptionFor f s t by
    intro vs f
    rw [addAllVariantPairs_eq]
    exact h vs vs f
  intro l
  induction l with
  | nil => intro vs f; exact Or.inr rfl
  | cons x xs ih =>
    intro vs f
    simp only [List.foldl_cons]
    rcases ih vs (variantInnerFold x vs f) with h | h
    · exact Or.inl h
    · rw [h]
      exact tof_variantInnerFold_cases x s t vs f

/-- Once an entry is `some 2` it stays `some 2` through the whole variant phase. -/
theorem tof_addAllVariantPairs_pres (s t : String) (vs : List String)
    (f : TransitRouteFinder) (h : transferOptionFor f s t = some 2) :
    transferOptionFor (addAllVariantPairs f vs) s t = some 2 := by
  rcases tof_addAllVariantPairs_cases s t vs f with h2 | h2
  · exact h2
  · rw [h2, h]

/-- The inner loop writes `some 2` at `(fromId, t)` for every `t` in the group other
than `fromId` itself. -/
theorem tof_variantInnerFold_sets (fromId t : String) (hne : fromId ≠ t) :
    ∀ (vs : List String) (f : TransitRouteFinder), t ∈ vs →
      transferOptionFor (variantInnerFold fromId vs f) fromId t = some 2 := by
  intro vs
  induction vs with
  | nil => intro f ht; simp at ht
  | cons x xs ih =>
    intro f ht
    unfold variantInnerFold
    simp only [List.foldl_cons]
    by_cases hmem : t ∈ xs
    · exact ih _ hmem
    · have hx : t = x := by
        rcases List.mem_cons.1 ht with h | h
        · exact h
        · exact absurd h hmem
      subst hx
      rw [if_pos hne]
      have hset : transferOptionFor (addVariantPair f fromId t) fromId t = some 2 := by
        rw [transferOptionFor_addVariantPair, if_pos ⟨rfl, rfl⟩]
      rcases tof_variantInnerFold_cases fromId fromId t xs
          (addVariantPair f fromId t) with h | h
      · exact h
      · rw [variantInnerFold] at h
        rw [h, hset]

/-- Folding further origins over the group preserves a `some 2` entry. -/
theorem tof_outerFold_pres (s t : String) (vs : List String) :
    ∀ (l : List String) (f : TransitRouteFinder),
      transferOptionFor f s t = some 2 →
      transferOptionFor (l.foldl (fun f fromId => variantInnerFold fromId vs f) f) s t =
        some 2 := by
  intro l
  induction l with
  | nil => intro f h; exact h
  | cons y ys ih =>
    intro f h
    simp only [List.foldl_cons]
    refine ih _ ?_
    rcases tof_variantInnerFold_cases y s t vs f with h2 | h2
    · exact h2
    · rw [h2]; exact h

/-- The double loop writes `some 2` at every ordered pair of distinct group members. -/
theorem tof_addAllVariantPairs_sets (s t : String) (hne : s ≠ t) :
    ∀ (l vs : List String) (f : TransitRouteFinder), s ∈ l → t ∈ vs →
      transferOptionFor (l.foldl (fun f fromId => variantInnerFold fromId vs f) f) s t =
        some 2 := by
  intro l
  induction l with
  | nil => intro vs f hs _; simp at hs
  | cons x xs ih =>
    intro vs f hs ht
    simp only [List.foldl_cons]
    by_cases hmem : s ∈ xs
    · exact ih vs _ hmem ht
    · have hx : s = x := by
        rcases List.mem_cons.1 hs with h | h
        · exact h
        · exact absurd h hmem
      subst hx
      have hset : transferOptionFor (variantInnerFold s vs f) s t = some 2 :=
        tof_variantInnerFold_sets s t hne vs f ht
      exact tof_outerFold_pres s t vs xs _ hset

theorem conn_mem_addVariantPair (f : TransitRouteFinder) (a b s t : String)
    (h : t ∈ connectionsOf f s) : t ∈ connectionsOf (addVariantPair f a b) s := by
  rw [connectionsOf_addVariantPair]
  by_cases has : a = s
  · subst has; rw [if_pos rfl]; exact mem_sadd_of_mem b h
  · rw [if_neg has]; exact h

theorem conn_mem_variantInnerFold (fromId s t : String) :
    ∀ (vs : List String) (f : TransitRouteFinder), t ∈ connectionsOf f s →
      t ∈ connectionsOf (variantInnerFold fromId vs f) s := by
  intro vs
  induction vs with
  | nil => intro f h; exact h
  | cons x xs ih =>
    intro f h
    unfold variantInnerFold
    simp only [List.foldl_cons]
    refine ih _ ?_
    by_cases hx : fromId ≠ x
    · rw [if_pos hx]; exact conn_mem_addVariantPair f fromId x s t h
    · rw [if_neg hx]; exact h

theorem conn_mem_outerFold (s t : String) (vs : List String) :
    ∀ (l : List String) (f : TransitRouteFinder), t ∈ connectionsOf f s →
      t ∈ connectionsOf (l.foldl (fun f fromId => variantInnerFold fromId vs f) f) s := by
  intro l
  induction l with
  | nil => intro f h; exact h
  | cons y ys ih =>
    intro f h
    simp only [List.foldl_cons]
    exact ih _ (conn_mem_variantInnerFold y s t vs f h)

theorem conn_variantInnerFold_sets (fromId t : String) (hne : fromId ≠ t) :
    ∀ (vs : List String) (f : TransitRouteFinder), t ∈ vs →
      t ∈ connectionsOf (variantInnerFold fromId vs f) fromId := by
  intro vs
  induction vs with
  | nil => intro f ht; simp at ht
  | cons x xs ih =>
    intro f ht
    unfold variantInnerFold
    simp only [List.foldl_cons]
    by_cases hmem : t ∈ xs
    · exact ih _ hmem
    · have hx : t = x := by
        rcases List.mem_cons.1 ht with h | h
        · exact h
        · exact absurd h hmem
      subst hx
      rw [if_pos hne]
      have hset : t ∈ connectionsOf (addVariantPair f fromId t) fromId := by
        rw [connectionsOf_addVariantPair, if_pos rfl]
        exact self_mem_sadd _ _
      exact conn_mem_variantInnerFold fromId fromId t xs _ hset

theorem conn_addAllVariantPairs_sets (s t : String) (hne : s ≠ t) :
    ∀ (l vs : List String) (f : TransitRouteFinder), s ∈ l → t ∈ vs →
      t ∈ connectionsOf (l.foldl (fun f fromId => variantInnerFold fromId vs f) f) s := by
  intro l
  induction l with
  | nil => intro vs f hs _; simp at hs
  | cons x xs ih =>
    intro vs f hs ht
    simp only [List.foldl_cons]
    by_cases hmem : s ∈ xs
    · exact ih vs _ hmem ht
    · have hx : s = x := by
        rcases List.mem_cons.1 hs with h | h
        · exact h
        · exact absurd h hmem
      subst hx
      exact conn_mem_outerFold s t vs xs _
        (conn_variantInnerFold_sets s t hne vs f ht)

/-- The group fold of `processVariantTransfers`. -/
def variantGroupsFold (gs : List (String × List String)) (f : TransitRouteFinder) :
    TransitRouteFinder :=
  gs.foldl (fun f p => if 1 < p.2.length then addAllVariantPairs f p.2 else f) f

theorem processVariantTransfers_eq (f : TransitRouteFinder) :
    processVariantTransfers f =
      variantGroupsFold (buildStationVariants (f.stopConnections.map Prod.fst)) f := rfl

theorem variantGroupsFold_cons (g : String × List String)
    (gs : List (String × List String)) (f : TransitRouteFinder) :
    variantGroupsFold (g :: gs) f =
      variantGroupsFold gs (if 1 < g.2.length then addAllVariantPairs f g.2 else f) := rfl

theorem tof_groupsFold_pres (s t : String) :
    ∀ (gs : List (String × List String)) (f : TransitRouteFinder),
      transferOptionFor f s t = some 2 →
      transferOptionFor (variantGroupsFold gs f) s t = some 2 := by
  intro gs
  induction gs with
  | nil => intro f h; exact h
  | cons g gs2 ih =>
    intro f h
    rw [variantGroupsFold_cons]
    refine ih _ ?_
    by_cases hg : 1 < g.2.length
    · rw [if_pos hg]; exact tof_addAllVariantPairs_pres s t g.2 f h
    · rw [if_neg hg]; exact h

theorem conn_groupsFold_pres (s t : String) :
    ∀ (gs : List (String × List String)) (f : TransitRouteFinder),
      t ∈ connectionsOf f s → t ∈ connectionsOf (variantGroupsFold gs f) s := by
  intro gs
  induction gs with
  | nil => intro f h; exact h
  | cons g gs2 ih =>
    intro f h
    rw [variantGroupsFold_cons]
    refine ih _ ?_
    by_cases hg : 1 < g.2.length
    · rw [if_pos hg, addAllVariantPairs_eq]
      exact conn_mem_outerFold s t g.2 g.2 f h
    · rw [if_neg hg]; exact h

theorem one_lt_length_of_two_mem {vs : List String} {s t : String}
    (hs : s ∈ vs) (ht : t ∈ vs) (hne : s ≠ t) : 1 < vs.length := by
  cases vs with
  | nil => simp at hs
  | cons a l =>
    cases l with
    | nil =>
      simp only [List.mem_singleton] at hs ht
      exact absurd (hs.trans ht.symm) hne
    | cons b l2 =>
      simp only [List.length_cons]
      omega

theorem tof_groupsFold_sets (s t : String) (hne : s ≠ t) :
    ∀ (gs : List (String × List String)) (f : TransitRouteFinder),
      (∃ p, p ∈ gs ∧ s ∈ p.2 ∧ t ∈ p.2) →
      transferOptionFor (variantGroupsFold gs f) s t = some 2 := by
  intro gs
  induction gs with
  | nil =>
    rintro f ⟨p, hp, _⟩
    simp at hp
  | cons g gs2 ih =>
    rintro f ⟨p, hp, hs, ht⟩
    rw [variantGroupsFold_cons]
    by_cases hin : ∃ p2, p2 ∈ gs2 ∧ s ∈ p2.2 ∧ t ∈ p2.2
    · exact ih _ hin
    · have hpg : p = g := by
        rcases List.mem_cons.1 hp with h | h
        · exact h
        · exact absurd ⟨p, h, hs, ht⟩ hin
      subst hpg
      have hlen : 1 < p.2.length := one_lt_length_of_two_mem hs ht hne
      rw [if_pos hlen]
      refine tof_groupsFold_pres s t gs2 _ ?_
      rw [addAllVariantPairs_eq]
      exact tof_addAllVariantPairs_sets s t hne p.2 p.2 f hs ht

theorem conn_groupsFold_sets (s t : String) (hne : s ≠ t) :
    ∀ (gs : List (String × List String)) (f : TransitRouteFinder),
      (∃ p, p ∈ gs ∧ s ∈ p.2 ∧ t ∈ p.2) →
      t ∈ connectionsOf (variantGroupsFold gs f) s := by
  intro gs
  induction gs with
  | nil =>
    rintro f ⟨p, hp, _⟩
    simp at hp
  | cons g gs2 ih =>
    rintro f ⟨p, hp, hs, ht⟩
    rw [variantGroupsFold_cons]
    by_cases hin : ∃ p2, p2 ∈ gs2 ∧ s ∈ p2.2 ∧ t ∈ p2.2
    · exact ih _ hin
    · have hpg : p = g := by
        rcases List.mem_cons.1 hp with h | h
        · exact h
        · exact absurd ⟨p, h, hs, ht⟩ hin
      subst hpg
      have hlen : 1 < p.2.length := one_lt_length_of_two_mem hs ht hne
      rw [if_pos hlen]
      refine conn_groupsFold_pres s t gs2 _ ?_
      rw [addAllVariantPairs_eq]
      exact conn_addAllVariantPairs_sets s t hne p.2 p.2 f hs ht

theorem groupAdd_lookup (m : List (String × List String)) (k b : String) :
    alookup (aupdate (ensureKey m (getBaseStationId k) []) (getBaseStationId k)
      (fun g => sadd g k)) b =
      if getBaseStationId k = b then
        some (sadd ((alookup m (getBaseStationId k)).getD []) k)
      else alookup m b := by
  rw [alookup_aupdate]
  by_cases h : getBaseStationId k = b
  · rw [if_pos h, if_pos h, alookup_ensureKey, if_pos rfl]
    simp
  · rw [if_neg h, if_neg h, alookup_ensureKey, if_neg h]

theorem buildStationVariants_eq (keys : List String) :
    buildStationVariants keys =
      keys.foldl (fun m stopId =>
        aupdate (ensureKey m (getBaseStationId stopId) []) (getBaseStationId stopId)
          (fun g => sadd g stopId)) [] := rfl

theorem buildStationVariants_memAux (s : String) :
    ∀ (l : List String) (acc : List (String × List String)),
      (s ∈ l ∨ ∃ vs, alookup acc (getBaseStationId s) = some vs ∧ s ∈ vs) →
      ∃ vs, alookup (l.foldl (fun m stopId =>
          aupdate (ensureKey m (getBaseStationId stopId) []) (getBaseStationId stopId)
            (fun g => sadd g stopId)) acc) (getBaseStationId s) = some vs ∧ s ∈ vs := by
  intro l
  induction l with
  | nil =>
    intro acc h
    rcases h with h | h
    · simp at h
    · exact h
  | cons k ks ih =>
    intro acc h
    simp only [List.foldl_cons]
    refine ih _ ?_
    rcases h with h | ⟨vs, hvs, hmem⟩
    · rcases List.mem_cons.1 h with rfl | h2
      · refine Or.inr
          ⟨sadd ((alookup acc (getBaseStationId s)).getD []) s, ?_, ?_⟩
        · rw [groupAdd_lookup, if_pos rfl]
        · exact self_mem_sadd _ _
      · exact Or.inl h2
    · refine Or.inr ?_
      by_cases hb : getBaseStationId k = getBaseStationId s
      · refine ⟨sadd ((alookup acc (getBaseStationId k)).getD []) k, ?_, ?_⟩
        · rw [groupAdd_lookup, if_pos hb]
        · rw [hb, hvs]
          simpa using mem_sadd_of_mem k hmem
      · exact ⟨vs, by rw [groupAdd_lookup, if_neg hb]; exact hvs, hmem⟩

/-- Every key of the adjacency index belongs to the variant group of its base id. -/
theorem buildStationVariants_mem (keys : List String) (s : String) (h : s ∈ keys) :
    ∃ vs, alookup (buildStationVariants keys) (getBaseStationId s) = some vs ∧
      s ∈ vs := by
  rw [buildStationVariants_eq]
  exact buildStationVariants_memAux s keys [] (Or.inl h)

/-- **C5**: after `processTransfers`, every ordered pair of distinct stop ids that are
known to the adjacency index (as populated when variant derivation runs, i.e. after the
real transfer rows were ingested) and share a base station id carries a 2-minute
transfer-table entry — regardless of any previously loaded real entry for the pair,
which is overwritten — together with an adjacency edge. -/
theorem claim_C5 (g : TransitRouteFinder) (rows : List Transfer) (s t : String)
    (hne : s ≠ t)
    (hs : s ∈ (rows.foldl processOneTransfer g).stopConnections.map Prod.fst)
    (ht : t ∈ (rows.foldl processOneTransfer g).stopConnections.map Prod.fst)
    (hbase : getBaseStationId s = getBaseStationId t) :
    transferOptionFor (processTransfers rows g) s t = some 2 ∧
    t ∈ connectionsOf (processTransfers rows g) s := by
  have hpt : processTransfers rows g =
      processVariantTransfers (rows.foldl processOneTransfer g) := rfl
  obtain ⟨vs, hvs, hsv⟩ := buildStationVariants_mem
    ((rows.foldl processOneTransfer g).stopConnections.map Prod.fst) s hs
  obtain ⟨vt, hvt, htv⟩ := buildStationVariants_mem
    ((rows.foldl processOneTransfer g).stopConnections.map Prod.fst) t ht
  rw [← hbase] at hvt
  rw [hvs] at hvt
  have hvteq : vt = vs := by
    simpa using hvt.symm
  subst hvteq
  have hgroup : (getBaseStationId s, vt) ∈
      buildStationVariants ((rows.foldl processOneTransfer g).stopConnections.map
        Prod.fst) := alookup_mem hvs
  rw [hpt, processVariantTransfers_eq]
  constructor
  · exact tof_groupsFold_sets s t hne _ _ ⟨(getBaseStationId s, vt), hgroup, hsv, htv⟩
  · exact conn_groupsFold_sets s t hne _ _ ⟨(getBaseStationId s, vt), hgroup, hsv, htv⟩

/-- One trip visiting the directional variants `101N` and `101S`. -/
def c5rows : List StopVisit :=
  [⟨"T1", "101N", "08:00:00", 1⟩, ⟨"T1", "101S", "08:03:00", 2⟩]

/-- The route finder built from `c5rows`. -/
def c5finder : TransitRouteFinder :=
  (processStopTimes c5rows TransitRouteFinder.empty).getD TransitRouteFinder.empty

/-- A real transfer row for the same pair with a 10-minute time, to exercise the
overwrite. -/
def c5realRows : List Transfer := [⟨"101N", "101S", 2, some 600⟩]

/-- Witness for C5: with zero transfer rows, `101N` and `101S` receive bidirectional
2-minute transfer entries and adjacency edges; with a real 10-minute row for
`(101N, 101S)` supplied, the synthetic 2-minute edge overwrites it. -/
theorem claim_C5_witness :
    transferOptionFor (processTransfers [] c5finder) "101N" "101S" = some 2 ∧
    "101S" ∈ connectionsOf (processTransfers [] c5finder) "101N" ∧
    transferOptionFor (processTransfers [] c5finder) "101S" "101N" = some 2 ∧
    "101N" ∈ connectionsOf (processTransfers [] c5finder) "101S" ∧
    transferOptionFor (processTransfers c5realRows c5finder) "101N" "101S" = some 2 := by
  refine ⟨?_, ?_, ?_, ?_, ?_⟩
  · exact (claim_C5 c5finder [] "101N" "101S" (by decide) (by decide) (by decide)
      (by decide)).1
  · exact (claim_C5 c5finder [] "101N" "101S" (by decide) (by decide) (by decide)
      (by decide)).2
  · exact (claim_C5 c5finder [] "101S" "101N" (by decide) (by decide) (by decide)
      (by decide)).1
  · exact (claim_C5 c5finder [] "101S" "101N" (by decide) (by decide) (by decide)
      (by decide)).2
  · exact (claim_C5 c5finder c5realRows "101N" "101S" (by decide) (by decide)
      (by decide) (by decide)).1
